import Mathlib

/-!
Verification of the chart-reconstruction engine in `rectarg.py`
(versions 1.0 and 1.1).

The Python source is shallowly embedded:
* strings are modelled as lists of code points (`List ℕ`, ASCII semantics
  for `str.upper` / `str.strip` and the regex character classes used by
  the source);
* Python floats are idealised as exact rationals (`ℚ`); `int(round x)`
  is modelled by `pyRound` (round-half-to-even, as in Python 3) and
  `math.floor` by `Int.floor`;
* the fragments of `recreate` that the claims are about (grid-edge
  construction, 16-bit quantisation, neighbour-driven label visibility)
  are embedded as standalone functions over the same data.
-/

/-! ### Code-point helpers (ASCII model of the Python string operations) -/

/-- Code points of a Lean string literal, used to write readable inputs. -/
def cps (s : String) : List ℕ :=
  s.data.map Char.toNat

/-- ASCII decimal digit, the `\d` class of the source's regexes. -/
def isDigitB (c : ℕ) : Bool :=
  decide (48 ≤ c ∧ c ≤ 57)

/-- ASCII upper-case letter, the `[A-Z]` class of the source's regexes. -/
def isAlphaB (c : ℕ) : Bool :=
  decide (65 ≤ c ∧ c ≤ 90)

/-- ASCII whitespace, the characters removed by Python's `str.strip`. -/
def isSpaceB (c : ℕ) : Bool :=
  decide (c = 32 ∨ c = 9 ∨ c = 10 ∨ c = 11 ∨ c = 12 ∨ c = 13)

/-- One character of Python's `str.upper` (ASCII model). -/
def upperCp (c : ℕ) : ℕ :=
  if 97 ≤ c ∧ c ≤ 122 then c - 32 else c

/-- Python's `str.strip()`: drop whitespace from both ends. -/
def pyStrip (l : List ℕ) : List ℕ :=
  ((l.dropWhile isSpaceB).reverse.dropWhile isSpaceB).reverse

/-- Model of `tok.strip().upper()`, the preprocessing both `generate_labels` and
`normalize_sid_global` apply to their raw arguments. -/
def normTok (l : List ℕ) : List ℕ :=
  (pyStrip l).map upperCp

/-- Numeric value of a digit string, the `int(...)` of the source applied
to a run of decimal digits. -/
def digitsVal (l : List ℕ) : ℕ :=
  l.foldl (fun a c => 10 * a + (c - 48)) 0

/-- Little-endian base-10 digit list, fuel-based so that the kernel can
evaluate it (the fuel is always sufficient: each step divides by 10). -/
def natDigitsAux : ℕ → ℕ → List ℕ
  | 0, _ => []
  | _ + 1, 0 => []
  | fuel + 1, n + 1 => ((n + 1) % 10) :: natDigitsAux fuel ((n + 1) / 10)

theorem natDigitsAux_eq : ∀ fuel n, n ≤ fuel → natDigitsAux fuel n = Nat.digits 10 n
  | 0, 0, _ => by simp [natDigitsAux]
  | 0, n + 1, h => absurd h (by omega)
  | fuel + 1, 0, _ => by simp [natDigitsAux]
  | fuel + 1, n + 1, h => by
      have hdiv : (n + 1) / 10 ≤ fuel := by
        have := Nat.div_lt_self (Nat.succ_pos n) (by norm_num : 1 < 10)
        omega
      rw [natDigitsAux, natDigitsAux_eq fuel ((n + 1) / 10) hdiv,
        Nat.digits_def' (by norm_num : (1 : ℕ) < 10) (Nat.succ_pos n)]

/-- Decimal rendering of a natural number, Python's `str(int(...))`:
most-significant digit first, no leading zeros, `0 ↦ "0"`. -/
def natDigits (n : ℕ) : List ℕ :=
  if n = 0 then [48] else (natDigitsAux n n).reverse.map (fun d => 48 + d)

theorem natDigits_eq_digits (n : ℕ) :
    natDigits n
      = if n = 0 then [48] else (Nat.digits 10 n).reverse.map (fun d => 48 + d) := by
  unfold natDigits
  rw [natDigitsAux_eq n n le_rfl]

/-- Python's `f"{idx:0{width}d}"`: left-pad a digit string with zeros. -/
def zeroPad (w : ℕ) (l : List ℕ) : List ℕ :=
  List.replicate (w - l.length) 48 ++ l

/-- Python's `range(a, b + 1)` (empty when `b < a`, as in the source's
numeric label rules). -/
def pyRangeIncl (a b : ℕ) : List ℕ :=
  (List.range (b + 1 - a)).map (a + ·)

/-! ### `generate_labels` and `_alpha_range` (rectarg.py 751-823, v1.1) -/

/-- Model of `alpha_to_num` inside `_alpha_range`: spreadsheet base-26 value,
`A = 1`. -/
def alpha_to_num (l : List ℕ) : ℕ :=
  l.foldl (fun n c => n * 26 + (c - 64)) 0

/-- Fuel-based body of `num_to_alpha` (fuel always sufficient: each loop
step divides by 26). -/
def num_to_alphaAux : ℕ → ℕ → List ℕ
  | 0, _ => []
  | _ + 1, 0 => []
  | fuel + 1, n + 1 => num_to_alphaAux fuel (n / 26) ++ [65 + n % 26]

/-- Model of `num_to_alpha` inside `_alpha_range`: the loop
`while n > 0: n, r = divmod(n - 1, 26); s = chr(65 + r) + s`. -/
def num_to_alpha (n : ℕ) : List ℕ :=
  num_to_alphaAux n n

/-- Model of `_alpha_range`: swap the endpoints when decreasing, then map the
spreadsheet rendering over the inclusive range. -/
def alphaRange (s e : List ℕ) : List (List ℕ) :=
  let n1 := alpha_to_num s
  let n2 := alpha_to_num e
  if n2 < n1 then (pyRangeIncl n2 n1).map num_to_alpha
  else (pyRangeIncl n1 n2).map num_to_alpha

/-- The regex `^(GS)(\d+)$` of label rule 1: on success, the digit
suffix (leading zeros kept, exactly as the captured group). -/
def gsParse (u : List ℕ) : Option (List ℕ) :=
  if u.take 2 = [71, 83] ∧ u.drop 2 ≠ [] ∧ (u.drop 2).all isDigitB then
    some (u.drop 2)
  else none

/-- The regex `^(\d+)([A-Z]+)$` of label rule 3: numeric part and
alphabetic part on success. -/
def daParse (u : List ℕ) : Option (List ℕ × List ℕ) :=
  if u.takeWhile isDigitB ≠ [] ∧ u.dropWhile isDigitB ≠ [] ∧
      (u.dropWhile isDigitB).all isAlphaB then
    some (u.takeWhile isDigitB, u.dropWhile isDigitB)
  else none

/-- The `'_'` disabled-axis sentinel. -/
def sentinelTok : List ℕ := [95]

/-- Label rules 2-5 of `generate_labels` (tried when rule 1 fails),
applied to the stripped upper-cased tokens. -/
def genRest (s e : List ℕ) : List (List ℕ) :=
  if s ≠ [] ∧ s.all isDigitB ∧ e ≠ [] ∧ e.all isDigitB then
    (pyRangeIncl (digitsVal s) (digitsVal e)).map
      (fun i => zeroPad (max s.length e.length) (natDigits i))
  else
    match daParse s, daParse e with
    | some (ps, ss), some (pe, se) =>
        if ps = pe then (alphaRange ss se).map (fun x => ps ++ x)
        else if s = e then [s] else [s, e]
    | _, _ =>
        if s ≠ [] ∧ s.all isAlphaB ∧ e ≠ [] ∧ e.all isAlphaB then
          alphaRange s e
        else if s = e then [s] else [s, e]

/-- Rules 1-5 of `generate_labels` on the preprocessed tokens. -/
def genCore (s e : List ℕ) : List (List ℕ) :=
  match gsParse s, gsParse e with
  | some ds, some de =>
      (pyRangeIncl (digitsVal ds) (digitsVal de)).map
        (fun i => [71, 83] ++ zeroPad (max ds.length de.length) (natDigits i))
  | _, _ => genRest s e

/-- Model of `generate_labels` (rectarg.py v1.1, lines 751-798): the five label
rules tried in order, with the rule-5 fallback. -/
def generate_labels (t1 t2 : List ℕ) : List (List ℕ) :=
  if t1 = sentinelTok ∨ t2 = sentinelTok then []
  else genCore (normTok t1) (normTok t2)

/-! ### `normalize_sid_global` (rectarg.py v1.1, lines 993-1046) -/

/-- The regex `^(GS)0*(\d+)$` of the gray-strip branch: on success the
numeric value of the digit suffix (leading zeros absorbed by `0*`,
`int` applied by the source). -/
def gsNumParse (u : List ℕ) : Option ℕ :=
  match gsParse u with
  | some ds => some (digitsVal ds)
  | none => none

/-- The regex `^(\d+)([A-Z]+)0*(\d+)$` of the prefixed branch: numeric
prefix (kept verbatim), letters, numeric value of the suffix. -/
def dadParse (u : List ℕ) : Option (List ℕ × List ℕ × ℕ) :=
  if u.takeWhile isDigitB ≠ [] ∧
      (u.dropWhile isDigitB).takeWhile isAlphaB ≠ [] ∧
      (u.dropWhile isDigitB).dropWhile isAlphaB ≠ [] ∧
      ((u.dropWhile isDigitB).dropWhile isAlphaB).all isDigitB then
    some (u.takeWhile isDigitB, (u.dropWhile isDigitB).takeWhile isAlphaB,
      digitsVal ((u.dropWhile isDigitB).dropWhile isAlphaB))
  else none

/-- The regex `^([A-Z]+)0*(\d+)$` of the alpha+num branch: letters and
numeric value of the suffix. -/
def adParse (u : List ℕ) : Option (List ℕ × ℕ) :=
  if u.takeWhile isAlphaB ≠ [] ∧ u.dropWhile isAlphaB ≠ [] ∧
      (u.dropWhile isAlphaB).all isDigitB then
    some (u.takeWhile isAlphaB, digitsVal (u.dropWhile isAlphaB))
  else none

/-- The branch dispatch of `normalize_sid_global` applied to the
stripped, upper-cased identifier.  The final two source branches (pure
alphabetic, and the no-match fallback) both return the input unchanged
and are collapsed into the last case. -/
def normCore (u : List ℕ) : List ℕ :=
  match gsNumParse u with
  | some n => [71, 83] ++ natDigits n
  | none =>
    match dadParse u with
    | some (d1, a, n) => d1 ++ a ++ natDigits n
    | none =>
      match adParse u with
      | some (a, n) => a ++ natDigits n
      | none =>
        if u ≠ [] ∧ u.all isDigitB then natDigits (digitsVal u)
        else u

/-- Model of `normalize_sid_global`: strip, upper-case, then dispatch on the
first matching identifier shape. -/
def normalize_sid_global (sid : List ℕ) : List ℕ :=
  normCore (normTok sid)

/-! ### Character-class facts -/

theorem upperCp_idem (c : ℕ) : upperCp (upperCp c) = upperCp c := by
  by_cases h : 97 ≤ c ∧ c ≤ 122
  · simp only [upperCp, if_pos h,
      if_neg (show ¬(97 ≤ c - 32 ∧ c - 32 ≤ 122) by omega)]
  · simp only [upperCp, if_neg h]

theorem isSpaceB_upperCp (c : ℕ) : isSpaceB (upperCp c) = isSpaceB c := by
  unfold upperCp
  by_cases h : 97 ≤ c ∧ c ≤ 122
  · rw [if_pos h]
    simp only [isSpaceB, decide_eq_decide]
    omega
  · rw [if_neg h]

theorem upperCp_fix_digit {c : ℕ} (h : isDigitB c = true) : upperCp c = c := by
  simp only [isDigitB, decide_eq_true_eq] at h
  unfold upperCp
  split <;> omega

theorem upperCp_fix_alpha {c : ℕ} (h : isAlphaB c = true) : upperCp c = c := by
  simp only [isAlphaB, decide_eq_true_eq] at h
  unfold upperCp
  split <;> omega

theorem isSpaceB_of_digit {c : ℕ} (h : isDigitB c = true) : isSpaceB c = false := by
  simp only [isDigitB, decide_eq_true_eq] at h
  simp only [isSpaceB, decide_eq_false_iff_not]
  omega

theorem isSpaceB_of_alpha {c : ℕ} (h : isAlphaB c = true) : isSpaceB c = false := by
  simp only [isAlphaB, decide_eq_true_eq] at h
  simp only [isSpaceB, decide_eq_false_iff_not]
  omega

theorem not_digit_of_alpha {c : ℕ} (h : isAlphaB c = true) : isDigitB c = false := by
  simp only [isAlphaB, decide_eq_true_eq] at h
  simp only [isDigitB, decide_eq_false_iff_not]
  omega

theorem not_alpha_of_digit {c : ℕ} (h : isDigitB c = true) : isAlphaB c = false := by
  simp only [isDigitB, decide_eq_true_eq] at h
  simp only [isAlphaB, decide_eq_false_iff_not]
  omega

/-! ### Generic `takeWhile` / `dropWhile` facts -/

theorem dropWhile_eq_self_of {p : ℕ → Bool} {l : List ℕ}
    (h : ∀ c ∈ l, p c = false) : l.dropWhile p = l := by
  cases l with
  | nil => rfl
  | cons a t =>
      rw [List.dropWhile_cons, if_neg]
      simp [h a (List.mem_cons_self a t)]

theorem dropWhile_head_false {p : ℕ → Bool} {l : List ℕ} {c : ℕ}
    (h : (l.dropWhile p).head? = some c) : p c = false := by
  induction l with
  | nil => simp at h
  | cons a t ih =>
      rw [List.dropWhile_cons] at h
      by_cases hp : p a
      · rw [if_pos hp] at h
        exact ih h
      · rw [if_neg hp] at h
        simp only [List.head?_cons, Option.some.injEq] at h
        subst h
        exact Bool.eq_false_iff.mpr hp

theorem dropWhile_idem (p : ℕ → Bool) (l : List ℕ) :
    (l.dropWhile p).dropWhile p = l.dropWhile p := by
  cases h : l.dropWhile p with
  | nil => rfl
  | cons c t =>
      have hh : (l.dropWhile p).head? = some c := by
        rw [h]
        rfl
      have hc : p c = false := dropWhile_head_false hh
      rw [List.dropWhile_cons, if_neg (by simp [hc])]

theorem takeWhile_append_all {p : ℕ → Bool} {xs : List ℕ}
    (h : ∀ c ∈ xs, p c = true) (ys : List ℕ) :
    (xs ++ ys).takeWhile p = xs ++ ys.takeWhile p := by
  induction xs with
  | nil => rfl
  | cons a t ih =>
      rw [List.cons_append, List.takeWhile_cons,
        if_pos (h a (List.mem_cons_self a t)), List.cons_append]
      rw [ih (fun c hc => h c (List.mem_cons_of_mem a hc))]

theorem dropWhile_append_all {p : ℕ → Bool} {xs : List ℕ}
    (h : ∀ c ∈ xs, p c = true) (ys : List ℕ) :
    (xs ++ ys).dropWhile p = ys.dropWhile p := by
  induction xs with
  | nil => rfl
  | cons a t ih =>
      rw [List.cons_append, List.dropWhile_cons,
        if_pos (h a (List.mem_cons_self a t))]
      exact ih (fun c hc => h c (List.mem_cons_of_mem a hc))

theorem takeWhile_all {p : ℕ → Bool} {xs : List ℕ}
    (h : ∀ c ∈ xs, p c = true) : xs.takeWhile p = xs := by
  have := takeWhile_append_all h []
  simpa using this

theorem dropWhile_all {p : ℕ → Bool} {xs : List ℕ}
    (h : ∀ c ∈ xs, p c = true) : xs.dropWhile p = [] := by
  have := dropWhile_append_all h []
  simpa using this

theorem takeWhile_eq_nil_of_head {p : ℕ → Bool} {c : ℕ} {t : List ℕ}
    (h : p c = false) : (c :: t).takeWhile p = [] := by
  rw [List.takeWhile_cons, if_neg (by simp [h])]

/-! ### `pyStrip` / `normTok` facts -/

theorem pyStrip_eq_self {l : List ℕ} (h : ∀ c ∈ l, isSpaceB c = false) :
    pyStrip l = l := by
  unfold pyStrip
  rw [dropWhile_eq_self_of h]
  rw [dropWhile_eq_self_of (fun c hc => h c (List.mem_reverse.mp hc))]
  exact List.reverse_reverse l

theorem pyStrip_idem (l : List ℕ) : pyStrip (pyStrip l) = pyStrip l := by
  have key : ∀ m : List ℕ, (∀ c, m.head? = some c → isSpaceB c = false) →
      pyStrip ((m.reverse.dropWhile isSpaceB).reverse)
        = (m.reverse.dropWhile isSpaceB).reverse := by
    intro m hm
    unfold pyStrip
    have h1 : ((m.reverse.dropWhile isSpaceB).reverse).dropWhile isSpaceB
        = (m.reverse.dropWhile isSpaceB).reverse := by
      cases hXr : (m.reverse.dropWhile isSpaceB).reverse with
      | nil => rfl
      | cons c t =>
          have h0 : m.reverse.dropWhile isSpaceB <:+ m.reverse :=
            List.dropWhile_suffix _
          have hpre : (m.reverse.dropWhile isSpaceB).reverse <+:
              m.reverse.reverse := List.reverse_prefix.mpr h0
          rw [List.reverse_reverse, hXr] at hpre
          obtain ⟨r, hr⟩ := hpre
          have hhead : m.head? = some c := by
            rw [← hr]
            rfl
          rw [List.dropWhile_cons, if_neg (by simp [hm c hhead])]
    rw [h1, List.reverse_reverse, dropWhile_idem]
  have hm : ∀ c, (l.dropWhile isSpaceB).head? = some c → isSpaceB c = false :=
    fun _ hc => dropWhile_head_false hc
  have h2 : pyStrip l
      = (((l.dropWhile isSpaceB).reverse.dropWhile isSpaceB)).reverse := rfl
  rw [h2]
  exact key (l.dropWhile isSpaceB) hm

theorem pyStrip_map_upperCp (l : List ℕ) :
    pyStrip (l.map upperCp) = (pyStrip l).map upperCp := by
  have hf : (isSpaceB ∘ upperCp) = isSpaceB := funext isSpaceB_upperCp
  unfold pyStrip
  rw [List.dropWhile_map, hf, ← List.map_reverse, List.dropWhile_map, hf,
    ← List.map_reverse]

theorem map_upperCp_eq_self {l : List ℕ} (h : ∀ c ∈ l, upperCp c = c) :
    l.map upperCp = l := by
  induction l with
  | nil => rfl
  | cons a t ih =>
      rw [List.map_cons, h a (List.mem_cons_self a t),
        ih (fun c hc => h c (List.mem_cons_of_mem a hc))]

theorem normTok_idem (l : List ℕ) : normTok (normTok l) = normTok l := by
  have hcomp : upperCp ∘ upperCp = upperCp := funext upperCp_idem
  unfold normTok
  rw [pyStrip_map_upperCp, pyStrip_idem, List.map_map, hcomp]

theorem normTok_eq_self_of {l : List ℕ}
    (h : ∀ c ∈ l, isSpaceB c = false ∧ upperCp c = c) : normTok l = l := by
  unfold normTok
  rw [pyStrip_eq_self (fun c hc => (h c hc).1),
    map_upperCp_eq_self (fun c hc => (h c hc).2)]

/-! ### Decimal rendering facts -/

theorem digitsVal_append (xs : List ℕ) (c : ℕ) :
    digitsVal (xs ++ [c]) = 10 * digitsVal xs + (c - 48) := by
  simp [digitsVal, List.foldl_append]

theorem digitsVal_ofDigits (L : List ℕ) :
    digitsVal (L.reverse.map (fun d => 48 + d)) = Nat.ofDigits 10 L := by
  induction L with
  | nil => rfl
  | cons d L ih =>
      rw [List.reverse_cons, List.map_append]
      simp only [List.map_cons, List.map_nil]
      rw [digitsVal_append, ih]
      simp [Nat.ofDigits_cons]
      omega

theorem digitsVal_natDigits (n : ℕ) : digitsVal (natDigits n) = n := by
  rw [natDigits_eq_digits]
  split
  · subst n
    rfl
  · rw [digitsVal_ofDigits]
    exact Nat.ofDigits_digits 10 n

theorem natDigits_all_digit (n : ℕ) : ∀ c ∈ natDigits n, isDigitB c = true := by
  intro c hc
  rw [natDigits_eq_digits] at hc
  split at hc
  · simp at hc
    subst hc
    decide
  · simp only [List.mem_map, List.mem_reverse] at hc
    obtain ⟨d, hd, hdc⟩ := hc
    have : d < 10 := Nat.digits_lt_base (by norm_num) hd
    subst hdc
    simp only [isDigitB, decide_eq_true_eq]
    omega

theorem natDigits_ne_nil (n : ℕ) : natDigits n ≠ [] := by
  rw [natDigits_eq_digits]
  split
  · simp
  · simp only [ne_eq, List.map_eq_nil_iff, List.reverse_eq_nil_iff]
    exact Nat.digits_ne_nil_iff_ne_zero.mpr (by assumption)

/-! ### Re-parsing the outputs of `normCore` -/

theorem take_two_head {v : List ℕ} (h : v.take 2 = [71, 83]) :
    ∃ t, v = 71 :: 83 :: t := by
  cases v with
  | nil => simp at h
  | cons a w =>
      cases w with
      | nil => simp at h
      | cons b t =>
          have h2 : (a :: b :: t).take 2 = [a, b] := rfl
          rw [h2] at h
          injection h with ha h'
          injection h' with hb _
          subst ha
          subst hb
          exact ⟨t, rfl⟩

theorem gsParse_gs_out (n : ℕ) :
    gsParse ([71, 83] ++ natDigits n) = some (natDigits n) := by
  unfold gsParse
  rw [if_pos]
  · rfl
  · refine ⟨rfl, ?_, ?_⟩
    · simpa using natDigits_ne_nil n
    · simp only [List.cons_append, List.nil_append, List.drop_succ_cons,
        List.drop_zero, List.all_eq_true]
      exact natDigits_all_digit n

theorem gsParse_none_of_digit_head {c : ℕ} {t : List ℕ}
    (h : isDigitB c = true) : gsParse (c :: t) = none := by
  unfold gsParse
  rw [if_neg]
  rintro ⟨h1, -, -⟩
  obtain ⟨t', ht⟩ := take_two_head h1
  have hc : c = 71 := by
    injection ht
  subst hc
  simp [isDigitB] at h

theorem gsNumParse_none_of_digit_head {c : ℕ} {t : List ℕ}
    (h : isDigitB c = true) : gsNumParse (c :: t) = none := by
  unfold gsNumParse
  rw [gsParse_none_of_digit_head h]

theorem dadParse_out {d1 a : List ℕ} (n : ℕ)
    (hd1 : d1 ≠ []) (hd1d : ∀ c ∈ d1, isDigitB c = true)
    (ha : a ≠ []) (haa : ∀ c ∈ a, isAlphaB c = true) :
    dadParse (d1 ++ a ++ natDigits n) = some (d1, a, n) := by
  have hnd := natDigits_all_digit n
  have hndne := natDigits_ne_nil n
  obtain ⟨ah, a', rfl⟩ := List.exists_cons_of_ne_nil ha
  obtain ⟨nh, n', hne⟩ := List.exists_cons_of_ne_nil hndne
  have hahd : isDigitB ah = false :=
    not_digit_of_alpha (haa ah (List.mem_cons_self _ _))
  have hnha : isAlphaB nh = false := by
    apply not_alpha_of_digit
    exact hnd nh (hne ▸ List.mem_cons_self _ _)
  have h1 : (d1 ++ (ah :: a') ++ natDigits n).takeWhile isDigitB = d1 := by
    rw [List.append_assoc, takeWhile_append_all hd1d, List.cons_append,
      takeWhile_eq_nil_of_head hahd, List.append_nil]
  have h2 : (d1 ++ (ah :: a') ++ natDigits n).dropWhile isDigitB
      = (ah :: a') ++ natDigits n := by
    rw [List.append_assoc, dropWhile_append_all hd1d, List.cons_append,
      List.dropWhile_cons, if_neg (by simp [hahd])]
  have h3 : ((ah :: a') ++ natDigits n).takeWhile isAlphaB = ah :: a' := by
    rw [takeWhile_append_all haa, hne, takeWhile_eq_nil_of_head hnha,
      List.append_nil]
  have h4 : ((ah :: a') ++ natDigits n).dropWhile isAlphaB = natDigits n := by
    rw [dropWhile_append_all haa, hne, List.dropWhile_cons,
      if_neg (by simp [hnha])]
  unfold dadParse
  rw [h1, h2, h3, h4]
  rw [if_pos ⟨hd1, by simp, by simpa using hndne, by
    simpa only [List.all_eq_true] using hnd⟩]
  rw [digitsVal_natDigits]

theorem adParse_out {a : List ℕ} (n : ℕ)
    (ha : a ≠ []) (haa : ∀ c ∈ a, isAlphaB c = true) :
    adParse (a ++ natDigits n) = some (a, n) := by
  have hnd := natDigits_all_digit n
  have hndne := natDigits_ne_nil n
  obtain ⟨nh, n', hne⟩ := List.exists_cons_of_ne_nil hndne
  have hnha : isAlphaB nh = false := by
    apply not_alpha_of_digit
    exact hnd nh (hne ▸ List.mem_cons_self _ _)
  have h3 : (a ++ natDigits n).takeWhile isAlphaB = a := by
    rw [takeWhile_append_all haa, hne, takeWhile_eq_nil_of_head hnha,
      List.append_nil]
  have h4 : (a ++ natDigits n).dropWhile isAlphaB = natDigits n := by
    rw [dropWhile_append_all haa, hne, List.dropWhile_cons,
      if_neg (by simp [hnha])]
  unfold adParse
  rw [h3, h4]
  rw [if_pos ⟨ha, by simpa using hndne, by
    simpa only [List.all_eq_true] using hnd⟩]
  rw [digitsVal_natDigits]

theorem dadParse_none_of_alpha_head {c : ℕ} {t : List ℕ}
    (h : isAlphaB c = true) : dadParse (c :: t) = none := by
  unfold dadParse
  rw [if_neg]
  rintro ⟨h1, -, -, -⟩
  exact h1 (takeWhile_eq_nil_of_head (not_digit_of_alpha h))

theorem adParse_none_of_digit_head {c : ℕ} {t : List ℕ}
    (h : isDigitB c = true) : adParse (c :: t) = none := by
  unfold adParse
  rw [if_neg]
  rintro ⟨h1, -, -⟩
  exact h1 (takeWhile_eq_nil_of_head (not_alpha_of_digit h))

theorem dadParse_none_all_digits {v : List ℕ}
    (h : ∀ c ∈ v, isDigitB c = true) : dadParse v = none := by
  unfold dadParse
  rw [if_neg]
  rintro ⟨-, h2, -, -⟩
  rw [dropWhile_all h] at h2
  simp at h2

theorem gsParse_alpha_out {a : List ℕ} (n : ℕ)
    (ha : a ≠ []) (haa : ∀ c ∈ a, isAlphaB c = true) :
    (a = [71, 83] ∧ gsParse (a ++ natDigits n) = some (natDigits n)) ∨
      gsParse (a ++ natDigits n) = none := by
  by_cases hgs : a = [71, 83]
  · left
    refine ⟨hgs, ?_⟩
    rw [hgs]
    exact gsParse_gs_out n
  · right
    unfold gsParse
    rw [if_neg]
    rintro ⟨h1, h2, h3⟩
    obtain ⟨ah, a', rfl⟩ := List.exists_cons_of_ne_nil ha
    cases a' with
    | nil =>
        obtain ⟨t, ht⟩ := take_two_head h1
        simp only [List.cons_append, List.nil_append] at ht
        injection ht with hah ht'
        have h83 : 83 ∈ natDigits n := by
          rw [ht']
          exact List.mem_cons_self _ _
        have := natDigits_all_digit n 83 h83
        simp [isDigitB] at this
    | cons a1 a2 =>
        obtain ⟨t, ht⟩ := take_two_head h1
        simp only [List.cons_append] at ht
        injection ht with hah ht'
        injection ht' with ha1 ht''
        subst hah
        subst ha1
        cases a2 with
        | nil => exact hgs rfl
        | cons c a3 =>
            have hcd : isDigitB c = true := by
              have hmem : c ∈ (71 :: 83 :: c :: a3) ++ natDigits n := by
                simp
              have hdrop : ((71 :: 83 :: c :: a3) ++ natDigits n).drop 2
                  = c :: (a3 ++ natDigits n) := rfl
              rw [List.all_eq_true] at h3
              exact h3 c (by
                rw [hdrop]
                exact List.mem_cons_self _ _)
            have hca : isAlphaB c = true :=
              haa c (by simp)
            rw [not_digit_of_alpha hca] at hcd
            exact Bool.false_ne_true hcd

/-! ### Branch equations and inversion for `normCore` -/

theorem normCore_eq_gs {u : List ℕ} {n : ℕ} (h : gsNumParse u = some n) :
    normCore u = [71, 83] ++ natDigits n := by
  unfold normCore
  rw [h]

theorem normCore_eq_dad {u d1 a : List ℕ} {n : ℕ}
    (hgs : gsNumParse u = none) (h : dadParse u = some (d1, a, n)) :
    normCore u = d1 ++ a ++ natDigits n := by
  unfold normCore
  rw [hgs, h]

theorem normCore_eq_ad {u a : List ℕ} {n : ℕ}
    (hgs : gsNumParse u = none) (hdad : dadParse u = none)
    (h : adParse u = some (a, n)) : normCore u = a ++ natDigits n := by
  unfold normCore
  rw [hgs, hdad, h]

theorem normCore_eq_digits {u : List ℕ}
    (hgs : gsNumParse u = none) (hdad : dadParse u = none)
    (had : adParse u = none) (h : u ≠ [] ∧ u.all isDigitB) :
    normCore u = natDigits (digitsVal u) := by
  unfold normCore
  rw [hgs, hdad, had, if_pos h]

theorem normCore_eq_fallback {u : List ℕ}
    (hgs : gsNumParse u = none) (hdad : dadParse u = none)
    (had : adParse u = none) (h : ¬(u ≠ [] ∧ u.all isDigitB)) :
    normCore u = u := by
  unfold normCore
  rw [hgs, hdad, had, if_neg h]

theorem dadParse_inv {u d1 a : List ℕ} {n : ℕ}
    (h : dadParse u = some (d1, a, n)) :
    d1 ≠ [] ∧ (∀ c ∈ d1, isDigitB c = true) ∧ a ≠ [] ∧
      (∀ c ∈ a, isAlphaB c = true) := by
  unfold dadParse at h
  split at h
  · next hc =>
      obtain ⟨hc1, hc2, hc3, hc4⟩ := hc
      simp only [Option.some.injEq, Prod.mk.injEq] at h
      obtain ⟨h1, h2, h3⟩ := h
      subst h1
      subst h2
      exact ⟨hc1, fun c hc => List.mem_takeWhile_imp hc, hc2,
        fun c hc => List.mem_takeWhile_imp hc⟩
  · exact absurd h (by simp)

theorem adParse_inv {u a : List ℕ} {n : ℕ} (h : adParse u = some (a, n)) :
    a ≠ [] ∧ (∀ c ∈ a, isAlphaB c = true) := by
  unfold adParse at h
  split at h
  · next hc =>
      obtain ⟨hc1, hc2, hc3⟩ := hc
      simp only [Option.some.injEq, Prod.mk.injEq] at h
      obtain ⟨h1, h2⟩ := h
      subst h1
      exact ⟨hc1, fun c hc => List.mem_takeWhile_imp hc⟩
  · exact absurd h (by simp)

/-! ### `normCore` is a closure operation -/

theorem normCore_normCore (u : List ℕ) :
    normCore (normCore u) = normCore u := by
  cases hgs : gsNumParse u with
  | some n =>
      rw [normCore_eq_gs hgs]
      have hg2 : gsNumParse ([71, 83] ++ natDigits n) = some n := by
        unfold gsNumParse
        rw [gsParse_gs_out]
        show some (digitsVal (natDigits n)) = some n
        rw [digitsVal_natDigits]
      rw [normCore_eq_gs hg2]
  | none =>
      cases hdad : dadParse u with
      | some x =>
          obtain ⟨d1, a, n⟩ := x
          obtain ⟨hd1ne, hd1d, hane, haa⟩ := dadParse_inv hdad
          rw [normCore_eq_dad hgs hdad]
          have hgs2 : gsNumParse (d1 ++ a ++ natDigits n) = none := by
            obtain ⟨dh, d1', rfl⟩ := List.exists_cons_of_ne_nil hd1ne
            rw [List.cons_append, List.cons_append]
            exact gsNumParse_none_of_digit_head
              (hd1d dh (List.mem_cons_self _ _))
          have hdad2 : dadParse (d1 ++ a ++ natDigits n) = some (d1, a, n) :=
            dadParse_out n hd1ne hd1d hane haa
          rw [normCore_eq_dad hgs2 hdad2]
      | none =>
          cases had : adParse u with
          | some y =>
              obtain ⟨a, n⟩ := y
              obtain ⟨hane, haa⟩ := adParse_inv had
              rw [normCore_eq_ad hgs hdad had]
              rcases gsParse_alpha_out n hane haa with ⟨hgs83, hsome⟩ | hnone
              · have hg2 : gsNumParse (a ++ natDigits n) = some n := by
                  unfold gsNumParse
                  rw [hsome]
                  show some (digitsVal (natDigits n)) = some n
                  rw [digitsVal_natDigits]
                rw [normCore_eq_gs hg2, hgs83]
              · have hg2 : gsNumParse (a ++ natDigits n) = none := by
                  unfold gsNumParse
                  rw [hnone]
                obtain ⟨ah, a', rfl⟩ := List.exists_cons_of_ne_nil hane
                have hd2 : dadParse ((ah :: a') ++ natDigits n) = none := by
                  rw [List.cons_append]
                  exact dadParse_none_of_alpha_head
                    (haa ah (List.mem_cons_self _ _))
                have ha2 : adParse ((ah :: a') ++ natDigits n)
                    = some (ah :: a', n) :=
                  adParse_out n (by simp) haa
                rw [normCore_eq_ad hg2 hd2 ha2]
          | none =>
              by_cases hdig : u ≠ [] ∧ u.all isDigitB
              · rw [normCore_eq_digits hgs hdad had hdig]
                have hvd := natDigits_all_digit (digitsVal u)
                have hvne := natDigits_ne_nil (digitsVal u)
                obtain ⟨vh, v', hv⟩ := List.exists_cons_of_ne_nil hvne
                have hvhd : isDigitB vh = true :=
                  hvd vh (hv ▸ List.mem_cons_self _ _)
                have hg2 : gsNumParse (natDigits (digitsVal u)) = none := by
                  rw [hv]
                  exact gsNumParse_none_of_digit_head hvhd
                have hd2 : dadParse (natDigits (digitsVal u)) = none :=
                  dadParse_none_all_digits hvd
                have ha2 : adParse (natDigits (digitsVal u)) = none := by
                  rw [hv]
                  exact adParse_none_of_digit_head hvhd
                rw [normCore_eq_digits hg2 hd2 ha2
                  ⟨hvne, by simpa only [List.all_eq_true] using hvd⟩,
                  digitsVal_natDigits]
              · rw [normCore_eq_fallback hgs hdad had hdig,
                  normCore_eq_fallback hgs hdad had hdig]

/-- Outputs of `normCore` are already stripped and upper-case. -/
theorem normTok_normCore {u : List ℕ} (hu : normTok u = u) :
    normTok (normCore u) = normCore u := by
  have hfix : ∀ l : List ℕ,
      (∀ c ∈ l, isDigitB c = true ∨ isAlphaB c = true) → normTok l = l := by
    intro l h
    apply normTok_eq_self_of
    intro c hc
    rcases h c hc with hd | ha
    · exact ⟨isSpaceB_of_digit hd, upperCp_fix_digit hd⟩
    · exact ⟨isSpaceB_of_alpha ha, upperCp_fix_alpha ha⟩
  cases hgs : gsNumParse u with
  | some n =>
      rw [normCore_eq_gs hgs]
      apply hfix
      intro c hc
      rcases List.mem_append.mp hc with hc | hc
      · right
        simp only [List.mem_cons, List.not_mem_nil, or_false] at hc
        rcases hc with rfl | rfl <;> decide
      · left
        exact natDigits_all_digit n c hc
  | none =>
      cases hdad : dadParse u with
      | some x =>
          obtain ⟨d1, a, n⟩ := x
          obtain ⟨hd1ne, hd1d, hane, haa⟩ := dadParse_inv hdad
          rw [normCore_eq_dad hgs hdad]
          apply hfix
          intro c hc
          rcases List.mem_append.mp hc with hc | hc
          · rcases List.mem_append.mp hc with hc | hc
            · exact Or.inl (hd1d c hc)
            · exact Or.inr (haa c hc)
          · exact Or.inl (natDigits_all_digit n c hc)
      | none =>
          cases had : adParse u with
          | some y =>
              obtain ⟨a, n⟩ := y
              obtain ⟨hane, haa⟩ := adParse_inv had
              rw [normCore_eq_ad hgs hdad had]
              apply hfix
              intro c hc
              rcases List.mem_append.mp hc with hc | hc
              · exact Or.inr (haa c hc)
              · exact Or.inl (natDigits_all_digit n c hc)
          | none =>
              by_cases hdig : u ≠ [] ∧ u.all isDigitB
              · rw [normCore_eq_digits hgs hdad had hdig]
                apply hfix
                intro c hc
                exact Or.inl (natDigits_all_digit (digitsVal u) c hc)
              · rw [normCore_eq_fallback hgs hdad had hdig]
                exact hu

/-- C6.  For every identifier `x`, normalization is idempotent:
`normalize_sid_global (normalize_sid_global x) = normalize_sid_global x`. -/
theorem normalize_sid_global_idem (s : List ℕ) :
    normalize_sid_global (normalize_sid_global s) = normalize_sid_global s := by
  unfold normalize_sid_global
  rw [normTok_normCore (normTok_idem s), normCore_normCore]

/-! ### Claims C2 / C9: label-range generation -/

theorem normTok_digits {s : List ℕ} (h : ∀ c ∈ s, isDigitB c = true) :
    normTok s = s :=
  normTok_eq_self_of
    (fun c hc => ⟨isSpaceB_of_digit (h c hc), upperCp_fix_digit (h c hc)⟩)

theorem genCore_eq_gs {s e ds de : List ℕ}
    (hs : gsParse s = some ds) (he : gsParse e = some de) :
    genCore s e
      = (pyRangeIncl (digitsVal ds) (digitsVal de)).map
          (fun i => [71, 83] ++ zeroPad (max ds.length de.length) (natDigits i)) := by
  unfold genCore
  rw [hs, he]

theorem genCore_eq_rest_left {s e : List ℕ} (hs : gsParse s = none) :
    genCore s e = genRest s e := by
  unfold genCore
  rw [hs]

/-- C9.  For pure digit-string tokens whose start value exceeds the end
value, `generate_labels` returns the empty list (the alphabetic-range
start/end reordering is not applied to numeric ranges). -/
theorem generate_labels_numeric_reversed_empty (s e : List ℕ)
    (hs : s ≠ []) (he : e ≠ []) (hsd : ∀ c ∈ s, isDigitB c = true)
    (hed : ∀ c ∈ e, isDigitB c = true) (hlt : digitsVal e < digitsVal s) :
    generate_labels s e = [] := by
  have hs95 : s ≠ sentinelTok := by
    intro hEq
    have := hsd 95 (hEq ▸ List.mem_cons_self _ _)
    simp [isDigitB] at this
  have he95 : e ≠ sentinelTok := by
    intro hEq
    have := hed 95 (hEq ▸ List.mem_cons_self _ _)
    simp [isDigitB] at this
  unfold generate_labels
  rw [if_neg (by tauto)]
  rw [normTok_digits hsd, normTok_digits hed]
  obtain ⟨sh, s', rfl⟩ := List.exists_cons_of_ne_nil hs
  rw [genCore_eq_rest_left
    (gsParse_none_of_digit_head (hsd sh (List.mem_cons_self _ _)))]
  unfold genRest
  rw [if_pos ⟨by simp, by simpa only [List.all_eq_true] using hsd, he,
    by simpa only [List.all_eq_true] using hed⟩]
  have hrange : pyRangeIncl (digitsVal (sh :: s')) (digitsVal e) = [] := by
    unfold pyRangeIncl
    rw [Nat.sub_eq_zero_of_le (by omega)]
    rfl
  rw [hrange]
  rfl

/-- C9 witness: `generate_labels "22" "01"` is empty. -/
theorem generate_labels_numeric_reversed_empty_witness :
    digitsVal (cps "01") < digitsVal (cps "22") ∧
      generate_labels (cps "22") (cps "01") = [] := by
  refine ⟨by decide, ?_⟩
  exact generate_labels_numeric_reversed_empty (cps "22") (cps "01")
    (by decide) (by decide) (by decide) (by decide) (by decide)

/-- C2 counterexample: for the non-`GS` alphabetic prefix `AB`, the
range `AB01..AB03` is NOT expanded; the two raw tokens come back
verbatim (rule-5 fallback), not the three-element range the claim
requires. -/
theorem generate_labels_alpha_prefix_counterexample :
    generate_labels (cps "AB01") (cps "AB03") = [cps "AB01", cps "AB03"] ∧
      generate_labels (cps "AB01") (cps "AB03")
        ≠ [cps "AB01", cps "AB02", cps "AB03"] := by
  constructor
  · decide
  · decide

/-- C2 (amended).  Only for the literal grayscale prefix `GS`: both
tokens `GS` + digits produce the inclusive numeric range, each suffix
zero-padded to the wider of the two input suffix widths. -/
theorem generate_labels_gs_range (d1 d2 : List ℕ)
    (h1 : d1 ≠ []) (h1d : ∀ c ∈ d1, isDigitB c = true)
    (h2 : d2 ≠ []) (h2d : ∀ c ∈ d2, isDigitB c = true) :
    generate_labels ([71, 83] ++ d1) ([71, 83] ++ d2)
      = (pyRangeIncl (digitsVal d1) (digitsVal d2)).map
          (fun i => [71, 83] ++ zeroPad (max d1.length d2.length) (natDigits i)) := by
  have hsent : ∀ d : List ℕ, ([71, 83] ++ d : List ℕ) ≠ sentinelTok := by
    intro d hEq
    have := congrArg List.length hEq
    simp [sentinelTok] at this
  have hfix : ∀ d : List ℕ, (∀ c ∈ d, isDigitB c = true) →
      normTok ([71, 83] ++ d) = [71, 83] ++ d := by
    intro d hd
    apply normTok_eq_self_of
    intro c hc
    rcases List.mem_append.mp hc with hc | hc
    · simp only [List.mem_cons, List.not_mem_nil, or_false] at hc
      rcases hc with rfl | rfl <;> exact ⟨by decide, by decide⟩
    · exact ⟨isSpaceB_of_digit (hd c hc), upperCp_fix_digit (hd c hc)⟩
  have hp : ∀ d : List ℕ, d ≠ [] → (∀ c ∈ d, isDigitB c = true) →
      gsParse ([71, 83] ++ d) = some d := by
    intro d hne hd
    unfold gsParse
    rw [if_pos ⟨rfl, by simpa using hne,
      by simpa only [List.all_eq_true] using fun c hc => hd c (by simpa using hc)⟩]
    rfl
  unfold generate_labels
  rw [if_neg (by
    rintro (hEq | hEq)
    · exact hsent d1 hEq
    · exact hsent d2 hEq)]
  rw [hfix d1 h1d, hfix d2 h2d]
  exact genCore_eq_gs (hp d1 h1 h1d) (hp d2 h2 h2d)

/-- C2 witness: `generate_labels "GS01" "GS3" = [GS01, GS02, GS03]`. -/
theorem generate_labels_gs_range_witness :
    generate_labels (cps "GS01") (cps "GS3")
      = [cps "GS01", cps "GS02", cps "GS03"] := by
  have h := generate_labels_gs_range (cps "01") (cps "3")
    (by decide) (by decide) (by decide) (by decide)
  have heq : (cps "GS01", cps "GS3")
      = ([71, 83] ++ cps "01", [71, 83] ++ cps "3") := by decide
  rw [show cps "GS01" = [71, 83] ++ cps "01" by decide,
    show cps "GS3" = [71, 83] ++ cps "3" by decide, h]
  decide

/-! ### Claim C3: grid-edge construction (rectarg.py v1.1, 1513-1531)

`recreate` computes, per area axis, `total = count * tile * scale` (a
float, modelled as ℚ), `base = int(math.floor(total / count))`,
`remainder = int(round(total - base * count))`, gives the first
`remainder` cells one extra pixel, and accumulates edges starting from
`int(round(start_px))`. -/

/-- Python 3 `round` to an integer: round-half-to-even. -/
def pyRound (q : ℚ) : ℤ :=
  if q - Int.floor q < 1 / 2 then Int.floor q
  else if 1 / 2 < q - Int.floor q then Int.floor q + 1
  else if Int.floor q % 2 = 0 then Int.floor q else Int.floor q + 1

/-- The per-cell pixel widths `[base_w + (1 if i < remainder_w else 0)]`. -/
def gridWidths (total : ℚ) (n : ℕ) : List ℤ :=
  (List.range n).map (fun (i : ℕ) =>
    Int.floor (total / n) +
      (if (i : ℤ) < pyRound (total - Int.floor (total / n) * n) then 1 else 0))

/-- The cumulative pixel edges (`x_edges` / `y_edges` of `recreate`);
for a disabled axis (`count = 0`) the source emits the two rounded
endpoints instead. -/
def gridEdges (startPx total : ℚ) (n : ℕ) : List ℤ :=
  if 0 < n then
    List.scanl (fun a w => a + w) (pyRound startPx) (gridWidths total n)
  else [pyRound startPx, pyRound (startPx + total)]

theorem pyRound_intCast (k : ℤ) : pyRound (k : ℚ) = k := by
  unfold pyRound
  rw [Int.floor_intCast, sub_self, if_pos (by norm_num)]

theorem scanl_add_getLastD (a d : ℤ) (ws : List ℤ) :
    (List.scanl (fun x w => x + w) a ws).getLastD d = a + ws.sum := by
  induction ws generalizing a d with
  | nil => simp [List.scanl]
  | cons w ws ih =>
      rw [List.scanl_cons, List.singleton_append, List.getLastD_cons, ih,
        List.sum_cons, add_assoc]

theorem scanl_add_head? (a : ℤ) (ws : List ℤ) :
    (List.scanl (fun x w => x + w) a ws).head? = some a := by
  cases ws <;> simp [List.scanl]

theorem scanl_add_getLast? (a : ℤ) (ws : List ℤ) :
    (List.scanl (fun x w => x + w) a ws).getLast? = some (a + ws.sum) := by
  cases ws with
  | nil => simp [List.scanl]
  | cons w ws =>
      rw [List.scanl_cons, List.singleton_append, List.getLast?_cons,
        ← List.getLastD_eq_getLast?, scanl_add_getLastD, List.sum_cons,
        add_assoc]

theorem scanl_add_chain_lt (a : ℤ) (ws : List ℤ) (h : ∀ w ∈ ws, 0 < w) :
    List.Chain' (· < ·) (List.scanl (fun x w => x + w) a ws) := by
  induction ws generalizing a with
  | nil => simp [List.scanl]
  | cons w ws ih =>
      rw [List.scanl_cons, List.singleton_append, List.chain'_cons']
      refine ⟨?_, ih (a + w) (fun x hx => h x (List.mem_cons_of_mem _ hx))⟩
      intro y hy
      rw [scanl_add_head?] at hy
      simp only [Option.mem_def, Option.some.injEq] at hy
      subst hy
      have := h w (List.mem_cons_self _ _)
      omega

theorem sum_base_ite (b r : ℤ) (n : ℕ) :
    ((List.range n).map (fun (i : ℕ) => b + if (i : ℤ) < r then (1 : ℤ) else 0)).sum
      = n * b + max 0 (min r n) := by
  induction n with
  | zero => simp
  | succ n ih =>
      rw [List.range_succ, List.map_append, List.sum_append, ih]
      simp only [List.map_cons, List.map_nil, List.sum_cons, List.sum_nil]
      have hlin : ((n : ℤ) + 1) * b = n * b + b := by ring
      by_cases hr : (n : ℤ) < r
      · rw [if_pos hr]
        push_cast
        omega
      · rw [if_neg hr]
        push_cast
        omega

/-- For an integer total span `t ≥ n`, `base ≥ 1` and the remainder is
exactly `t - base * n ∈ [0, n)`. -/
theorem grid_base_rem {t : ℤ} {n : ℕ} (hn : 0 < n) (hnt : (n : ℤ) ≤ t) :
    1 ≤ Int.floor ((t : ℚ) / n) ∧
      pyRound ((t : ℚ) - Int.floor ((t : ℚ) / n) * n)
        = t - Int.floor ((t : ℚ) / n) * n ∧
      0 ≤ t - Int.floor ((t : ℚ) / n) * n ∧
      t - Int.floor ((t : ℚ) / n) * n < n := by
  have hnq : (0 : ℚ) < n := by positivity
  have hb1 : 1 ≤ Int.floor ((t : ℚ) / n) := by
    rw [Int.le_floor, le_div_iff₀ hnq]
    push_cast
    rw [one_mul]
    exact_mod_cast hnt
  have hlow : (Int.floor ((t : ℚ) / n) : ℚ) * n ≤ t := by
    have := Int.floor_le ((t : ℚ) / n)
    calc (Int.floor ((t : ℚ) / n) : ℚ) * n ≤ ((t : ℚ) / n) * n := by
          exact mul_le_mul_of_nonneg_right this (le_of_lt hnq)
      _ = t := by field_simp
  have hhigh : (t : ℚ) < (Int.floor ((t : ℚ) / n) + 1) * n := by
    have := Int.lt_floor_add_one ((t : ℚ) / n)
    calc (t : ℚ) = ((t : ℚ) / n) * n := by field_simp
      _ < (Int.floor ((t : ℚ) / n) + 1) * n := by
          exact mul_lt_mul_of_pos_right this hnq
  have hcast : (t : ℚ) - Int.floor ((t : ℚ) / n) * n
      = ((t - Int.floor ((t : ℚ) / n) * n : ℤ) : ℚ) := by
    push_cast
    ring
  refine ⟨hb1, by rw [hcast, pyRound_intCast], ?_, ?_⟩
  · have : (0 : ℚ) ≤ (t : ℚ) - Int.floor ((t : ℚ) / n) * n := by linarith
    rw [hcast] at this
    exact_mod_cast this
  · have : (t : ℚ) - Int.floor ((t : ℚ) / n) * n < n := by
      push_cast at hhigh ⊢
      linarith
    rw [hcast] at this
    exact_mod_cast this

/-- Shared workhorse for the integral-span edge facts: strictly
increasing edges running from `round(start)` to `round(start) + t`. -/
theorem gridEdges_integral_spec (startPx : ℚ) (t : ℤ) (n : ℕ)
    (hn : 0 < n) (hnt : (n : ℤ) ≤ t) :
    List.Chain' (· < ·) (gridEdges startPx ((t : ℤ) : ℚ) n) ∧
      (gridEdges startPx ((t : ℤ) : ℚ) n).head? = some (pyRound startPx) ∧
      (gridEdges startPx ((t : ℤ) : ℚ) n).getLast? = some (pyRound startPx + t) := by
  obtain ⟨hb1, hrem, hr0, hrn⟩ := grid_base_rem hn hnt
  unfold gridEdges
  rw [if_pos hn]
  have hwpos : ∀ w ∈ gridWidths ((t : ℤ) : ℚ) n, 0 < w := by
    intro w hw
    unfold gridWidths at hw
    simp only [List.mem_map, List.mem_range] at hw
    obtain ⟨i, -, rfl⟩ := hw
    split <;> omega
  have hsum : (gridWidths ((t : ℤ) : ℚ) n).sum = t := by
    unfold gridWidths
    rw [hrem, sum_base_ite]
    have hcomm : (n : ℤ) * Int.floor (((t : ℤ) : ℚ) / n)
        = Int.floor (((t : ℤ) : ℚ) / n) * n := mul_comm _ _
    omega
  exact ⟨scanl_add_chain_lt _ _ hwpos, scanl_add_head? _ _,
    by rw [scanl_add_getLast?, hsum]⟩

/-- C3 (amended).  For an axis with `count = n > 0` whose computed total
pixel span is an integer `t ≥ n`, the grid edges are strictly
increasing (no zero-width cells) and run from `round(start)` to
`round(start) + t`: the cell widths sum exactly to the integer total
span.  (The counterexample shows both parts fail for fractional spans
smaller than the cell count.) -/
theorem grid_edges_integral_exact (startPx : ℚ) (t : ℤ) (n : ℕ)
    (hn : 0 < n) (hnt : (n : ℤ) ≤ t) :
    List.Chain' (· < ·) (gridEdges startPx ((t : ℤ) : ℚ) n) ∧
      (gridEdges startPx ((t : ℤ) : ℚ) n).head? = some (pyRound startPx) ∧
      (gridEdges startPx ((t : ℤ) : ℚ) n).getLast?
        = some (pyRound startPx + t) :=
  gridEdges_integral_spec startPx t n hn hnt

/-- C3 witness: a 3-cell axis with total span 6 and start 0. -/
theorem grid_edges_integral_exact_witness :
    List.Chain' (· < ·) (gridEdges 0 ((6 : ℤ) : ℚ) 3) ∧
      (gridEdges 0 ((6 : ℤ) : ℚ) 3).head? = some (pyRound 0) ∧
      (gridEdges 0 ((6 : ℤ) : ℚ) 3).getLast? = some (pyRound 0 + 6) :=
  grid_edges_integral_exact 0 6 3 (by norm_num) (by norm_num)

/-- C3 counterexample: with `count = 3`, `tile = 1`, `scale = 1/2` the
computed total span is `3/2`; the edges come out `[0, 1, 2, 2]`: the
last two edges coincide (a zero-width cell) and the edge span `2` is
not the computed total `3/2`. -/
theorem grid_edges_fractional_counterexample :
    gridEdges 0 (3 * (1 * ((1 : ℚ) / 2))) 3 = [0, 1, 2, 2] ∧
      ¬ List.Chain' (· < ·) (gridEdges 0 (3 * (1 * ((1 : ℚ) / 2))) 3) ∧
      ((2 : ℤ) : ℚ) - ((0 : ℤ) : ℚ) ≠ 3 * (1 * ((1 : ℚ) / 2)) := by
  have hfloor :
      Int.floor ((3 * (1 * ((1 : ℚ) / 2))) / ((3 : ℕ) : ℚ)) = 0 := by
    norm_num
  have hrem : pyRound ((3 * (1 * ((1 : ℚ) / 2)))
      - Int.floor ((3 * (1 * ((1 : ℚ) / 2))) / ((3 : ℕ) : ℚ)) * ((3 : ℕ) : ℚ))
      = 2 := by
    rw [hfloor]
    unfold pyRound
    norm_num
  have hedges : gridEdges 0 (3 * (1 * ((1 : ℚ) / 2))) 3 = [0, 1, 2, 2] := by
    unfold gridEdges gridWidths
    rw [if_pos (by norm_num)]
    rw [hrem, hfloor]
    rw [show List.range 3 = [0, 1, 2] from rfl]
    simp only [List.map_cons, List.map_nil]
    norm_num [List.scanl, pyRound]
  refine ⟨hedges, ?_, by norm_num⟩
  rw [hedges]
  intro hch
  have h22 := (List.chain'_cons.mp
    ((List.chain'_cons.mp ((List.chain'_cons.mp hch).2)).2)).1
  omega

/-! ### Claims C5 / C10: A4 DPI detection

Both versions hold `A4_DPI_TABLE`, a DPI → (page-width-px,
page-height-px) map, and `detect_best_a4_dpi(chart_px_w, chart_px_h,
margin_mm)` walking the sorted DPI keys and returning the first for
which chart + 2·margin fits the page in portrait or landscape
orientation, else the largest key.  The two translations below are kept
separate, one per source file. -/

/-- Model of `A4_DPI_TABLE` of rectarg.py v1.0 (lines 580-591), in the sorted
key order `sorted(A4_DPI_TABLE.keys())` used by the detector. -/
def A4_DPI_TABLE_v10 : List (ℕ × ℕ × ℕ) :=
  [(72, 595, 842), (96, 794, 1123), (100, 827, 1169), (120, 992, 1403),
   (150, 1240, 1754), (200, 1654, 2339), (250, 2067, 2923),
   (300, 2480, 3508), (600, 4961, 7016), (1200, 9921, 14031)]

/-- Model of `A4_DPI_TABLE` of rectarg.py v1.1 (lines 862-873), in sorted key
order. -/
def A4_DPI_TABLE_v11 : List (ℕ × ℕ × ℕ) :=
  [(72, 595, 842), (96, 794, 1123), (100, 827, 1169), (120, 992, 1403),
   (150, 1240, 1754), (200, 1654, 2339), (250, 2067, 2923),
   (300, 2480, 3508), (600, 4961, 7016), (1200, 9921, 14031)]

/-- One loop iteration's fit test of v1.0's `detect_best_a4_dpi`:
`margin_px = int(round(margin_mm * (dpi / 25.4)))`, then portrait or
landscape containment of chart + 2·margin. -/
def fitsA4_v10 (w h m : ℚ) (e : ℕ × ℕ × ℕ) : Prop :=
  (w + 2 * ((pyRound (m * ((e.1 : ℚ) / (25.4 : ℚ))) : ℤ) : ℚ) ≤ (e.2.1 : ℚ) ∧
      h + 2 * ((pyRound (m * ((e.1 : ℚ) / (25.4 : ℚ))) : ℤ) : ℚ) ≤ (e.2.2 : ℚ)) ∨
    (w + 2 * ((pyRound (m * ((e.1 : ℚ) / (25.4 : ℚ))) : ℤ) : ℚ) ≤ (e.2.2 : ℚ) ∧
      h + 2 * ((pyRound (m * ((e.1 : ℚ) / (25.4 : ℚ))) : ℤ) : ℚ) ≤ (e.2.1 : ℚ))

/-- The identical fit test of v1.1's `detect_best_a4_dpi` (lines
875-909). -/
def fitsA4_v11 (w h m : ℚ) (e : ℕ × ℕ × ℕ) : Prop :=
  (w + 2 * ((pyRound (m * ((e.1 : ℚ) / (25.4 : ℚ))) : ℤ) : ℚ) ≤ (e.2.1 : ℚ) ∧
      h + 2 * ((pyRound (m * ((e.1 : ℚ) / (25.4 : ℚ))) : ℤ) : ℚ) ≤ (e.2.2 : ℚ)) ∨
    (w + 2 * ((pyRound (m * ((e.1 : ℚ) / (25.4 : ℚ))) : ℤ) : ℚ) ≤ (e.2.2 : ℚ) ∧
      h + 2 * ((pyRound (m * ((e.1 : ℚ) / (25.4 : ℚ))) : ℤ) : ℚ) ≤ (e.2.1 : ℚ))

instance (w h m : ℚ) (e : ℕ × ℕ × ℕ) : Decidable (fitsA4_v10 w h m e) := by
  unfold fitsA4_v10
  exact inferInstance

instance (w h m : ℚ) (e : ℕ × ℕ × ℕ) : Decidable (fitsA4_v11 w h m e) := by
  unfold fitsA4_v11
  exact inferInstance

/-- Model of `detect_best_a4_dpi` of v1.0: first fitting DPI in sorted key
order, else `max(candidates)`. -/
def detect_best_a4_dpi_v10 (w h m : ℚ) : ℕ :=
  match A4_DPI_TABLE_v10.find? (fun e => decide (fitsA4_v10 w h m e)) with
  | some e => e.1
  | none => (A4_DPI_TABLE_v10.map (fun e => e.1)).foldl max 0

/-- Model of `detect_best_a4_dpi` of v1.1: first fitting DPI in sorted key
order, else `max(candidates)`. -/
def detect_best_a4_dpi_v11 (w h m : ℚ) : ℕ :=
  match A4_DPI_TABLE_v11.find? (fun e => decide (fitsA4_v11 w h m e)) with
  | some e => e.1
  | none => (A4_DPI_TABLE_v11.map (fun e => e.1)).foldl max 0

theorem find?_min_key {p : ℕ × ℕ × ℕ → Bool} {l : List (ℕ × ℕ × ℕ)}
    {e : ℕ × ℕ × ℕ}
    (hsort : l.Pairwise (fun x y => x.1 ≤ y.1)) (h : l.find? p = some e) :
    ∀ e2 ∈ l, p e2 = true → e.1 ≤ e2.1 := by
  induction l with
  | nil => simp at h
  | cons x t ih =>
      rw [List.pairwise_cons] at hsort
      intro e2 he2 hp2
      cases hpx : p x with
      | true =>
          rw [List.find?_cons_of_pos _ hpx] at h
          injection h with h
          subst h
          rcases List.mem_cons.mp he2 with rfl | he2
          · exact le_refl _
          · exact hsort.1 e2 he2
      | false =>
          rw [List.find?_cons_of_neg _ (by simp [hpx])] at h
          rcases List.mem_cons.mp he2 with rfl | he2
          · rw [hpx] at hp2
            exact absurd hp2 (by simp)
          · exact ih hsort.2 h e2 he2 hp2

/-- C5.  `detect_best_a4_dpi` (v1.1) returns the smallest table DPI at
which the chart plus twice the margin (converted to pixels at that DPI)
fits an A4 page in portrait or landscape orientation, and the table's
largest DPI (1200) when no entry fits. -/
theorem detect_best_a4_dpi_minimal (w h m : ℚ) :
    ((∃ e ∈ A4_DPI_TABLE_v11, fitsA4_v11 w h m e) →
      ∃ e ∈ A4_DPI_TABLE_v11, fitsA4_v11 w h m e ∧
        detect_best_a4_dpi_v11 w h m = e.1 ∧
        ∀ e2 ∈ A4_DPI_TABLE_v11, fitsA4_v11 w h m e2 → e.1 ≤ e2.1) ∧
      ((∀ e ∈ A4_DPI_TABLE_v11, ¬ fitsA4_v11 w h m e) →
        detect_best_a4_dpi_v11 w h m = 1200) := by
  have hsort : A4_DPI_TABLE_v11.Pairwise (fun x y => x.1 ≤ y.1) := by decide
  constructor
  · rintro ⟨e0, he0, hf0⟩
    cases hfind : A4_DPI_TABLE_v11.find? (fun e => decide (fitsA4_v11 w h m e)) with
    | none =>
        rw [List.find?_eq_none] at hfind
        exact absurd (by simpa using hf0) (by simpa using hfind e0 he0)
    | some e =>
        refine ⟨e, List.mem_of_find?_eq_some hfind, ?_, ?_, ?_⟩
        · have := List.find?_some hfind
          simpa using this
        · unfold detect_best_a4_dpi_v11
          rw [hfind]
        · intro e2 he2 hf2
          exact find?_min_key hsort hfind e2 he2 (by simpa using hf2)
  · intro hnone
    unfold detect_best_a4_dpi_v11
    rw [List.find?_eq_none.mpr (fun e he => by simpa using hnone e he)]
    rfl

/-- C5 witness: a 1000×1000 px chart with zero margin first fits A4 at
150 dpi. -/
theorem detect_best_a4_dpi_minimal_witness :
    ∃ e ∈ A4_DPI_TABLE_v11, fitsA4_v11 1000 1000 0 e ∧
      detect_best_a4_dpi_v11 1000 1000 0 = e.1 ∧
      ∀ e2 ∈ A4_DPI_TABLE_v11, fitsA4_v11 1000 1000 0 e2 → e.1 ≤ e2.1 :=
  (detect_best_a4_dpi_minimal 1000 1000 0).1
    ⟨(150, 1240, 1754), by decide, by
      unfold fitsA4_v11 pyRound
      norm_num⟩

/-- C10.  The v1.0 and v1.1 DPI detectors are extensionally equal: same
table, same smallest-fit-else-largest rule. -/
theorem detect_best_a4_dpi_v10_v11_eq (w h m : ℚ) :
    detect_best_a4_dpi_v10 w h m = detect_best_a4_dpi_v11 w h m := by
  have hfun : (fun e => decide (fitsA4_v10 w h m e))
      = (fun e => decide (fitsA4_v11 w h m e)) := by
    funext e
    exact decide_eq_decide.mpr Iff.rfl
  unfold detect_best_a4_dpi_v10 detect_best_a4_dpi_v11
  rw [show A4_DPI_TABLE_v10 = A4_DPI_TABLE_v11 from rfl, hfun]

/-! ### Claims C4 / C8: colorimetric conversion (rectarg.py v1.1,
687-746) and the 16-bit paint quantisation (1590-1601)

Floats are idealised as exact rationals; `np.linalg.inv` is the exact
3×3 inverse (adjugate over determinant). -/

structure Vec3 where
  x : ℚ
  y : ℚ
  z : ℚ
deriving DecidableEq

structure Mat3 where
  a11 : ℚ
  a12 : ℚ
  a13 : ℚ
  a21 : ℚ
  a22 : ℚ
  a23 : ℚ
  a31 : ℚ
  a32 : ℚ
  a33 : ℚ

def mat3Apply (A : Mat3) (v : Vec3) : Vec3 :=
  ⟨A.a11 * v.x + A.a12 * v.y + A.a13 * v.z,
    A.a21 * v.x + A.a22 * v.y + A.a23 * v.z,
    A.a31 * v.x + A.a32 * v.y + A.a33 * v.z⟩

def mat3Mul (A B : Mat3) : Mat3 :=
  ⟨A.a11 * B.a11 + A.a12 * B.a21 + A.a13 * B.a31,
    A.a11 * B.a12 + A.a12 * B.a22 + A.a13 * B.a32,
    A.a11 * B.a13 + A.a12 * B.a23 + A.a13 * B.a33,
    A.a21 * B.a11 + A.a22 * B.a21 + A.a23 * B.a31,
    A.a21 * B.a12 + A.a22 * B.a22 + A.a23 * B.a32,
    A.a21 * B.a13 + A.a22 * B.a23 + A.a23 * B.a33,
    A.a31 * B.a11 + A.a32 * B.a21 + A.a33 * B.a31,
    A.a31 * B.a12 + A.a32 * B.a22 + A.a33 * B.a32,
    A.a31 * B.a13 + A.a32 * B.a23 + A.a33 * B.a33⟩

def mat3Det (A : Mat3) : ℚ :=
  A.a11 * (A.a22 * A.a33 - A.a23 * A.a32)
    - A.a12 * (A.a21 * A.a33 - A.a23 * A.a31)
    + A.a13 * (A.a21 * A.a32 - A.a22 * A.a31)

/-- Exact 3×3 inverse (adjugate over determinant), the idealisation of
`np.linalg.inv`. -/
def mat3Inv (A : Mat3) : Mat3 :=
  let d := mat3Det A
  ⟨(A.a22 * A.a33 - A.a23 * A.a32) / d,
    (A.a13 * A.a32 - A.a12 * A.a33) / d,
    (A.a12 * A.a23 - A.a13 * A.a22) / d,
    (A.a23 * A.a31 - A.a21 * A.a33) / d,
    (A.a11 * A.a33 - A.a13 * A.a31) / d,
    (A.a13 * A.a21 - A.a11 * A.a23) / d,
    (A.a21 * A.a32 - A.a22 * A.a31) / d,
    (A.a12 * A.a31 - A.a11 * A.a32) / d,
    (A.a11 * A.a22 - A.a12 * A.a21) / d⟩

def diag3 (v : Vec3) : Mat3 :=
  ⟨v.x, 0, 0, 0, v.y, 0, 0, 0, v.z⟩

/-- The Bradford cone-response matrix `M` of `xyz_d50_to_srgb_intent`. -/
def bradfordM : Mat3 :=
  ⟨0.8951, 0.2664, -0.1614,
    -0.7502, 1.7135, 0.0367,
    0.0389, -0.0685, 1.0296⟩

/-- Model of `D50 = np.array([0.96422, 1.0, 0.82521])`. -/
def whiteD50 : Vec3 := ⟨0.96422, 1, 0.82521⟩

/-- Model of `D65 = np.array([0.95047, 1.0, 1.08883])`. -/
def whiteD65 : Vec3 := ⟨0.95047, 1, 1.08883⟩

/-- Model of `adapt = Mi @ np.diag((M @ D65) / (M @ D50)) @ M`. -/
def adaptM : Mat3 :=
  mat3Mul
    (mat3Mul (mat3Inv bradfordM)
      (diag3
        ⟨(mat3Apply bradfordM whiteD65).x / (mat3Apply bradfordM whiteD50).x,
          (mat3Apply bradfordM whiteD65).y / (mat3Apply bradfordM whiteD50).y,
          (mat3Apply bradfordM whiteD65).z / (mat3Apply bradfordM whiteD50).z⟩))
    bradfordM

/-- Model of `M2`, the XYZ(D65) → linear sRGB matrix. -/
def srgbM : Mat3 :=
  ⟨3.2406, -1.5372, -0.4986,
    -0.9689, 1.8758, 0.0415,
    0.0557, -0.2040, 1.0570⟩

/-- Model of `rgb_lin = M2 @ (adapt @ [X, Y, Z])`. -/
def rgbLinear (X Y Z : ℚ) : Vec3 :=
  mat3Apply srgbM (mat3Apply adaptM ⟨X, Y, Z⟩)

/-- Model of `invf` inside `lab_to_xyz`: the CIE 1976 inverse transfer
function. -/
def labInvF (t : ℚ) : ℚ :=
  if 6 / 29 < t then t ^ 3 else 3 * (6 / 29) ^ 2 * (t - 4 / 29)

/-- Model of `lab_to_xyz` (rectarg.py v1.1, 687-695). -/
def lab_to_xyz (L a b : ℚ) : Vec3 :=
  ⟨labInvF ((L + 16) / 116 + a / 500) * 0.96422,
    labInvF ((L + 16) / 116) * 1,
    labInvF ((L + 16) / 116 - b / 200) * 0.82521⟩

/-- Model of `xyz_d50_to_srgb_intent` with `intent='absolute'`, `clip=False` (the
call made by `recreate`): the linear triple, unclipped. -/
def xyz_d50_to_srgb_absolute (v : Vec3) : Vec3 :=
  rgbLinear v.x v.y v.z

/-- Model of `comp_gamma` of the `display` intent: IEC 61966-2-1 piecewise
encoding (real exponentiation). -/
noncomputable def srgbGamma (u : ℝ) : ℝ :=
  if u ≤ 0 then 0
  else if u ≤ 0.0031308 then 12.92 * u
  else 1.055 * u ^ ((1 : ℝ) / 2.4) - 0.055

/-- Model of `xyz_d50_to_srgb_intent` with `intent='display'`, `clip=False`. -/
noncomputable def xyz_d50_to_srgb_display (v : Vec3) : ℝ × ℝ × ℝ :=
  (srgbGamma (((rgbLinear v.x v.y v.z).x : ℚ) : ℝ),
    srgbGamma (((rgbLinear v.x v.y v.z).y : ℚ) : ℝ),
    srgbGamma (((rgbLinear v.x v.y v.z).z : ℚ) : ℝ))

/-- Model of `rgb_display = np.clip(rgb, 0.0, 1.0)` of the paint step. -/
def clip01 (q : ℚ) : ℚ := max 0 (min 1 q)

/-- Model of `rgb16 = (rgb_display * 65535.0).astype(np.uint16)`: the 16-bit
quantisation applied when painting; the `astype` cast truncates. -/
def quant16 (q : ℚ) : ℤ :=
  Int.floor (clip01 q * 65535)

theorem lab_to_xyz_white : lab_to_xyz 100 0 0 = whiteD50 := by
  simp only [lab_to_xyz, labInvF, whiteD50, Vec3.mk.injEq]
  norm_num

theorem mat3Apply_mul (A B : Mat3) (v : Vec3) :
    mat3Apply (mat3Mul A B) v = mat3Apply A (mat3Apply B v) := by
  simp only [mat3Apply, mat3Mul, Vec3.mk.injEq]
  refine ⟨by ring, by ring, by ring⟩

theorem mat3Apply_adaptM (v : Vec3) :
    mat3Apply adaptM v
      = mat3Apply (mat3Inv bradfordM)
          (mat3Apply
            (diag3
              ⟨(mat3Apply bradfordM whiteD65).x / (mat3Apply bradfordM whiteD50).x,
                (mat3Apply bradfordM whiteD65).y / (mat3Apply bradfordM whiteD50).y,
                (mat3Apply bradfordM whiteD65).z / (mat3Apply bradfordM whiteD50).z⟩)
            (mat3Apply bradfordM v)) := by
  unfold adaptM
  rw [mat3Apply_mul, mat3Apply_mul]

theorem bradford_D65 :
    mat3Apply bradfordM whiteD65
      = ⟨188285707 / 200000000, 1040417467 / 1000000000,
          1089532651 / 1000000000⟩ := by
  simp only [mat3Apply, bradfordM, whiteD65, Vec3.mk.injEq]
  norm_num

theorem bradford_D50 :
    mat3Apply bradfordM whiteD50
      = ⟨249071107 / 250000000, 1020427363 / 1000000000,
          409322187 / 500000000⟩ := by
  simp only [mat3Apply, bradfordM, whiteD50, Vec3.mk.injEq]
  norm_num

theorem bradford_inv :
    mat3Inv bradfordM
      = ⟨353346710000 / 358003292671, -52645908000 / 358003292671,
          57267156000 / 358003292671,
          154766710000 / 358003292671, 185574684000 / 358003292671,
          17646422000 / 358003292671,
          -3053290000 / 358003292671, 14335462000 / 358003292671,
          346721426000 / 358003292671⟩ := by
  simp only [mat3Inv, mat3Det, bradfordM, Mat3.mk.injEq]
  norm_num

theorem adaptM_D50 : mat3Apply adaptM whiteD50 = whiteD65 := by
  rw [mat3Apply_adaptM, bradford_D65, bradford_D50, bradford_inv]
  simp only [mat3Apply, diag3, bradfordM, whiteD50, whiteD65, Vec3.mk.injEq]
  norm_num

/-- The exact linear sRGB value of the D50 white point: the three
channels are `1.000002444`, `1.000076062` and `0.999834489` — close to
but not equal to `(1, 1, 1)`, because the fixed conversion matrices are
rounded to four decimals. -/
theorem rgbLinear_D50 :
    rgbLinear 0.96422 1 0.82521
      = ⟨250000611 / 250000000, 500038031 / 500000000,
          999834489 / 1000000000⟩ := by
  unfold rgbLinear
  rw [show (⟨0.96422, 1, 0.82521⟩ : Vec3) = whiteD50 from rfl, adaptM_D50]
  simp only [mat3Apply, srgbM, whiteD65, Vec3.mk.injEq]
  norm_num

theorem srgbGamma_bounds_le_one (u : ℝ) (h0 : 1 / 2 ≤ u) (h1 : u ≤ 1) :
    1.055 * u - 0.055 ≤ srgbGamma u ∧ srgbGamma u ≤ 1 := by
  have hpos : (0 : ℝ) < u := by linarith
  have hsmall : (0.0031308 : ℝ) < 1 / 2 := by norm_num
  unfold srgbGamma
  rw [if_neg (by linarith), if_neg (by linarith)]
  constructor
  · have h2 : u ^ (1 : ℝ) ≤ u ^ ((1 : ℝ) / 2.4) :=
      Real.rpow_le_rpow_of_exponent_ge hpos h1 (by norm_num)
    rw [Real.rpow_one] at h2
    linarith
  · have h3 : u ^ ((1 : ℝ) / 2.4) ≤ 1 :=
      Real.rpow_le_one (le_of_lt hpos) h1 (by norm_num)
    linarith

theorem srgbGamma_bounds_ge_one (u : ℝ) (h : 1 ≤ u) :
    1 ≤ srgbGamma u ∧ srgbGamma u ≤ 1.055 * u - 0.055 := by
  have hsmall : (0.0031308 : ℝ) < 1 := by norm_num
  unfold srgbGamma
  rw [if_neg (by linarith), if_neg (by linarith)]
  constructor
  · have h2 : u ^ (0 : ℝ) ≤ u ^ ((1 : ℝ) / 2.4) :=
      Real.rpow_le_rpow_of_exponent_le h (by norm_num)
    rw [Real.rpow_zero] at h2
    linarith
  · have h3 : u ^ ((1 : ℝ) / 2.4) ≤ u ^ (1 : ℝ) :=
      Real.rpow_le_rpow_of_exponent_le h (by norm_num)
    rw [Real.rpow_one] at h3
    linarith

/-- C4 counterexample: the blue channel of the converted D50 white
point is `0.999834489`, which misses 1 by more than the 16-bit
quantization step `1/65535`; the painted 16-bit value is 65524, not
65535. -/
theorem white_point_quantization_counterexample :
    ¬ (|(xyz_d50_to_srgb_absolute (lab_to_xyz 100 0 0)).z - 1| ≤ 1 / 65535) ∧
      quant16 ((xyz_d50_to_srgb_absolute (lab_to_xyz 100 0 0)).z) ≠ 65535 := by
  have hval : (xyz_d50_to_srgb_absolute (lab_to_xyz 100 0 0)).z
      = 999834489 / 1000000000 := by
    rw [lab_to_xyz_white]
    show (rgbLinear 0.96422 1 0.82521).z = 999834489 / 1000000000
    rw [rgbLinear_D50]
  constructor
  · rw [hval]
    intro h
    rw [abs_le] at h
    obtain ⟨h1, -⟩ := h
    norm_num at h1
  · rw [hval]
    unfold quant16 clip01
    rw [min_eq_right (by norm_num), max_eq_right (by norm_num)]
    norm_num

/-- C4 (amended).  Converting the D50 white point (L=100, a=0, b=0)
through `lab_to_xyz` then `xyz_d50_to_srgb_intent` yields RGB within
`2·10⁻⁴` of `(1, 1, 1)` per channel — under both the `absolute`
(linear) and the `display` (gamma-encoded) intent — but not within the
16-bit quantization step `1/65535` (see the counterexample). -/
theorem white_point_roundtrip_tol :
    lab_to_xyz 100 0 0 = whiteD50 ∧
      (|(xyz_d50_to_srgb_absolute (lab_to_xyz 100 0 0)).x - 1| ≤ 2 / 10000 ∧
        |(xyz_d50_to_srgb_absolute (lab_to_xyz 100 0 0)).y - 1| ≤ 2 / 10000 ∧
        |(xyz_d50_to_srgb_absolute (lab_to_xyz 100 0 0)).z - 1| ≤ 2 / 10000) ∧
      (|(xyz_d50_to_srgb_display (lab_to_xyz 100 0 0)).1 - 1| ≤ 2 / 10000 ∧
        |(xyz_d50_to_srgb_display (lab_to_xyz 100 0 0)).2.1 - 1| ≤ 2 / 10000 ∧
        |(xyz_d50_to_srgb_display (lab_to_xyz 100 0 0)).2.2 - 1| ≤ 2 / 10000) := by
  have habs : xyz_d50_to_srgb_absolute (lab_to_xyz 100 0 0)
      = ⟨250000611 / 250000000, 500038031 / 500000000,
          999834489 / 1000000000⟩ := by
    rw [lab_to_xyz_white]
    show rgbLinear 0.96422 1 0.82521 = _
    exact rgbLinear_D50
  have hdisp : xyz_d50_to_srgb_display (lab_to_xyz 100 0 0)
      = (srgbGamma (((250000611 / 250000000 : ℚ) : ℝ)),
          srgbGamma (((500038031 / 500000000 : ℚ) : ℝ)),
          srgbGamma (((999834489 / 1000000000 : ℚ) : ℝ))) := by
    rw [lab_to_xyz_white]
    unfold xyz_d50_to_srgb_display
    simp only [whiteD50]
    rw [rgbLinear_D50]
  have hgx := srgbGamma_bounds_ge_one
    (((250000611 / 250000000 : ℚ) : ℝ)) (by norm_num)
  have hgy := srgbGamma_bounds_ge_one
    (((500038031 / 500000000 : ℚ) : ℝ)) (by norm_num)
  have hgz := srgbGamma_bounds_le_one
    (((999834489 / 1000000000 : ℚ) : ℝ)) (by norm_num) (by norm_num)
  refine ⟨lab_to_xyz_white, ?_, ?_⟩
  · rw [habs]
    refine ⟨?_, ?_, ?_⟩ <;> (rw [abs_le]; constructor <;> norm_num)
  · rw [hdisp]
    obtain ⟨hx1, hx2⟩ := hgx
    obtain ⟨hy1, hy2⟩ := hgy
    obtain ⟨hz1, hz2⟩ := hgz
    have hxu : ((250000611 / 250000000 : ℚ) : ℝ) = 250000611 / 250000000 := by
      push_cast
      ring
    have hyu : ((500038031 / 500000000 : ℚ) : ℝ) = 500038031 / 500000000 := by
      push_cast
      ring
    have hzu : ((999834489 / 1000000000 : ℚ) : ℝ) = 999834489 / 1000000000 := by
      push_cast
      ring
    rw [hxu] at hx2
    rw [hyu] at hy2
    rw [hzu] at hz1
    refine ⟨?_, ?_, ?_⟩ <;> (rw [abs_le]; constructor <;> nlinarith)

theorem mul_two_D50_linear :
    xyz_d50_to_srgb_absolute ⟨2 * 0.96422, 2, 2 * 0.82521⟩
      = ⟨250000611 / 125000000, 500038031 / 250000000,
          999834489 / 500000000⟩ := by
  show rgbLinear (2 * 0.96422) 2 (2 * 0.82521) = _
  unfold rgbLinear
  rw [mat3Apply_adaptM, bradford_D65, bradford_D50, bradford_inv]
  simp only [mat3Apply, diag3, bradfordM, srgbM, Vec3.mk.injEq]
  norm_num

/-- C8.  Under `absolute` intent the conversion returns the linear
triple unclipped: components may exceed 1 (twice the D50 white) or be
negative (a pure Z stimulus); clipping to `[0, 1]` happens only in the
16-bit paint quantisation `quant16`, which saturates at 65535 for any
value ≥ 1 and at 0 for any value ≤ 0. -/
theorem absolute_intent_unclipped :
    1 < (xyz_d50_to_srgb_absolute ⟨2 * 0.96422, 2, 2 * 0.82521⟩).x ∧
      1 < (xyz_d50_to_srgb_absolute ⟨2 * 0.96422, 2, 2 * 0.82521⟩).y ∧
      1 < (xyz_d50_to_srgb_absolute ⟨2 * 0.96422, 2, 2 * 0.82521⟩).z ∧
      (xyz_d50_to_srgb_absolute ⟨0, 0, 1⟩).x < 0 ∧
      quant16 ((xyz_d50_to_srgb_absolute ⟨2 * 0.96422, 2, 2 * 0.82521⟩).x)
        = 65535 ∧
      quant16 ((xyz_d50_to_srgb_absolute ⟨0, 0, 1⟩).x) = 0 ∧
      (∀ q : ℚ, 1 ≤ q → quant16 q = 65535) ∧
      (∀ q : ℚ, q ≤ 0 → quant16 q = 0) := by
  have hneg : (xyz_d50_to_srgb_absolute ⟨0, 0, 1⟩).x < 0 := by
    show (rgbLinear 0 0 1).x < 0
    unfold rgbLinear
    rw [mat3Apply_adaptM, bradford_D65, bradford_D50, bradford_inv]
    simp only [mat3Apply, diag3, bradfordM, srgbM]
    norm_num
  have hq1 : ∀ q : ℚ, 1 ≤ q → quant16 q = 65535 := by
    intro q hq
    unfold quant16 clip01
    rw [min_eq_left hq, max_eq_right (by norm_num : (0 : ℚ) ≤ 1)]
    norm_num
  have hq0 : ∀ q : ℚ, q ≤ 0 → quant16 q = 0 := by
    intro q hq
    unfold quant16 clip01
    rw [min_eq_right (hq.trans (by norm_num)),
      max_eq_left hq]
    norm_num
  refine ⟨?_, ?_, ?_, hneg, ?_, ?_, hq1, hq0⟩
  · rw [mul_two_D50_linear]
    norm_num
  · rw [mul_two_D50_linear]
    norm_num
  · rw [mul_two_D50_linear]
    norm_num
  · rw [mul_two_D50_linear]
    exact hq1 _ (by norm_num)
  · exact hq0 _ (le_of_lt hneg)

/-- C8 witness: the quantisation clauses at the concrete out-of-range
values `3/2` and `-1/2`. -/
theorem absolute_intent_unclipped_witness :
    quant16 (3 / 2) = 65535 ∧ quant16 (-1 / 2) = 0 :=
  ⟨absolute_intent_unclipped.2.2.2.2.2.2.1 (3 / 2) (by norm_num),
    absolute_intent_unclipped.2.2.2.2.2.2.2 (-1 / 2) (by norm_num)⟩

/-! ### Claim C7: adjacency-driven label visibility (rectarg.py v1.1,
1610-1755)

Per area, `recreate` starts with all four label sides visible, walks
every other area, and suppresses the facing side when the gap is
non-negative and below the clearance while the orthogonal extents
overlap.  Manual overrides and the single-row/column auto-suppression
are applied afterwards.  The current area's `left_px`/`right_px`/
`top_px`/`bottom_px` come from the integer grid edges; the neighbour's
bounds from the exact `area_bounds` arithmetic. -/

structure AreaRec where
  xstart : List ℕ
  xend : List ℕ
  ystart : List ℕ
  yend : List ℕ
  tile_x : ℚ
  tile_y : ℚ
  pre_x : ℚ
  pre_y : ℚ
  post_x : ℚ
  post_y : ℚ

/-- Model of `len(generate_labels(a['xstart'], a['xend']))`. -/
def nColsA (a : AreaRec) : ℕ := (generate_labels a.xstart a.xend).length

def nRowsA (a : AreaRec) : ℕ := (generate_labels a.ystart a.yend).length

structure Bounds where
  left : ℚ
  top : ℚ
  right : ℚ
  bottom : ℚ

/-- Model of `area_bounds` inside `recreate` (lines 1646-1653). -/
def area_bounds (sx sy ox oy : ℚ) (a : AreaRec) : Bounds :=
  ⟨a.pre_x * sx + ox, a.pre_y * sy + oy,
    a.pre_x * sx + ox + (max 1 (nColsA a) : ℕ) * a.tile_x * sx,
    a.pre_y * sy + oy + (max 1 (nRowsA a) : ℕ) * a.tile_y * sy⟩

/-- Model of `horiz_gap` (lines 1655-1663): gap in px, `-1` on overlap. -/
def horiz_gap (sx sy ox oy : ℚ) (a1 a2 : AreaRec) : ℚ :=
  if (area_bounds sx sy ox oy a1).right ≤ (area_bounds sx sy ox oy a2).left then
    (area_bounds sx sy ox oy a2).left - (area_bounds sx sy ox oy a1).right
  else if (area_bounds sx sy ox oy a2).right ≤ (area_bounds sx sy ox oy a1).left then
    (area_bounds sx sy ox oy a1).left - (area_bounds sx sy ox oy a2).right
  else -1

/-- Model of `vert_gap` (lines 1665-1673). -/
def vert_gap (sx sy ox oy : ℚ) (a1 a2 : AreaRec) : ℚ :=
  if (area_bounds sx sy ox oy a1).bottom ≤ (area_bounds sx sy ox oy a2).top then
    (area_bounds sx sy ox oy a2).top - (area_bounds sx sy ox oy a1).bottom
  else if (area_bounds sx sy ox oy a2).bottom ≤ (area_bounds sx sy ox oy a1).top then
    (area_bounds sx sy ox oy a1).top - (area_bounds sx sy ox oy a2).bottom
  else -1

/-- Model of `horiz_overlap` (lines 1675-1677). -/
def horiz_overlap (b1 b2 : Bounds) : Prop :=
  ¬(b1.right ≤ b2.left ∨ b2.right ≤ b1.left)

/-- Model of `vert_overlap` (lines 1679-1681). -/
def vert_overlap (b1 b2 : Bounds) : Prop :=
  ¬(b1.bottom ≤ b2.top ∨ b2.bottom ≤ b1.top)

instance (b1 b2 : Bounds) : Decidable (horiz_overlap b1 b2) := by
  unfold horiz_overlap
  exact inferInstance

instance (b1 b2 : Bounds) : Decidable (vert_overlap b1 b2) := by
  unfold vert_overlap
  exact inferInstance

structure Flags where
  left : Bool
  top : Bool
  right : Bool
  bottom : Bool
deriving DecidableEq

/-- Model of `total_w`: `ncols * tile_x * SX if ncols > 0 else tile_x * SX`. -/
def areaTotalX (sx : ℚ) (a : AreaRec) : ℚ :=
  if 0 < nColsA a then (nColsA a : ℕ) * a.tile_x * sx else a.tile_x * sx

def areaTotalY (sy : ℚ) (a : AreaRec) : ℚ :=
  if 0 < nRowsA a then (nRowsA a : ℕ) * a.tile_y * sy else a.tile_y * sy

/-- The current area's integer `x_edges` (start `pre_x*SX + offset_x`). -/
def areaEdgesX (sx ox : ℚ) (a : AreaRec) : List ℤ :=
  gridEdges (a.pre_x * sx + ox) (areaTotalX sx a) (nColsA a)

def areaEdgesY (sy oy : ℚ) (a : AreaRec) : List ℤ :=
  gridEdges (a.pre_y * sy + oy) (areaTotalY sy a) (nRowsA a)

/-- The horizontal adjacency check of one neighbour-loop iteration
(lines 1698-1708): when the gap is in `[0, clearance)` and the vertical
extents overlap, hide the right labels if the neighbour is immediately
on the right (`right_px ≤ la`), else the left labels if it is
immediately on the left (`ra ≤ left_px`). -/
def stepHoriz (sx sy ox oy clw : ℚ) (leftPx rightPx : ℤ)
    (cur a : AreaRec) (f : Flags) : Flags :=
  if 0 ≤ horiz_gap sx sy ox oy cur a ∧ horiz_gap sx sy ox oy cur a < clw ∧
      vert_overlap (area_bounds sx sy ox oy cur)
        (area_bounds sx sy ox oy a) then
    if (rightPx : ℚ) ≤ (area_bounds sx sy ox oy a).left then
      Flags.mk f.left f.top false f.bottom
    else if (area_bounds sx sy ox oy a).right ≤ (leftPx : ℚ) then
      Flags.mk false f.top f.right f.bottom
    else f
  else f

/-- The vertical adjacency check of one neighbour-loop iteration
(lines 1710-1718). -/
def stepVert (sx sy ox oy clh : ℚ) (topPx bottomPx : ℤ)
    (cur a : AreaRec) (f : Flags) : Flags :=
  if 0 ≤ vert_gap sx sy ox oy cur a ∧ vert_gap sx sy ox oy cur a < clh ∧
      horiz_overlap (area_bounds sx sy ox oy cur)
        (area_bounds sx sy ox oy a) then
    if (bottomPx : ℚ) ≤ (area_bounds sx sy ox oy a).top then
      Flags.mk f.left f.top f.right false
    else if (area_bounds sx sy ox oy a).bottom ≤ (topPx : ℚ) then
      Flags.mk f.left false f.right f.bottom
    else f
  else f

/-- One iteration of the neighbour loop (lines 1693-1718): the
horizontal check updates the flags, then the vertical check updates the
result. -/
def neighborStep (sx sy ox oy clw clh : ℚ)
    (leftPx rightPx topPx bottomPx : ℤ) (cur : AreaRec)
    (f : Flags) (a : AreaRec) : Flags :=
  stepVert sx sy ox oy clh topPx bottomPx cur a
    (stepHoriz sx sy ox oy clw leftPx rightPx cur a f)

/-- Model of `clearance_w_px = max_label_w + 2 * label_gap_px` (line 1643). -/
def clearance_w (maxw gap : ℚ) : ℚ := maxw + 2 * gap

/-- Model of `clearance_h_px` (line 1642), using the rotated dimension when the
column labels do not fit the tile width. -/
def clearance_h (maxw maxh : ℚ) (rot : Bool) (gap : ℚ) : ℚ :=
  (if rot then maxw else maxh) + 2 * gap

/-- Manual override application (lines 1731-1746): `ALL`, `NONE` or a
subset of the letters `L`, `T`, `R`, `B`. -/
def applyOverride (ov : Option (List ℕ)) (f : Flags) : Flags :=
  match ov with
  | none => f
  | some flags =>
      if flags = cps "ALL" then Flags.mk true true true true
      else if flags = cps "NONE" then Flags.mk false false false false
      else Flags.mk (decide (76 ∈ flags)) (decide (84 ∈ flags))
        (decide (82 ∈ flags)) (decide (66 ∈ flags))

/-- Single-row / single-column auto-suppression (lines 1748-1755). -/
def autoSuppress (nrows ncols : ℕ) (f : Flags) : Flags :=
  let f1 := if nrows = 1 then Flags.mk false f.top false f.bottom else f
  if ncols = 1 then Flags.mk f1.left false f1.right false else f1

/-- The complete per-area label-visibility resolution: all sides start
visible, the neighbour loop suppresses facing sides, then the manual
override and the single-row/column auto-suppression are applied. -/
def resolveVisibility (sx sy ox oy maxw maxh : ℚ) (rot : Bool) (gap : ℚ)
    (cur : AreaRec) (others : List AreaRec) (ov : Option (List ℕ)) : Flags :=
  let xe := areaEdgesX sx ox cur
  let ye := areaEdgesY sy oy cur
  let f0 := others.foldl
    (neighborStep sx sy ox oy (clearance_w maxw gap)
      (clearance_h maxw maxh rot gap)
      ((xe.head?).getD 0) ((xe.getLast?).getD 0)
      ((ye.head?).getD 0) ((ye.getLast?).getD 0) cur)
    (Flags.mk true true true true)
  autoSuppress (max 1 (nRowsA cur)) (max 1 (nColsA cur)) (applyOverride ov f0)

/-- A 2×2 area with fractional tile width `0.3` starting at `x = 0`
(exact pixel right edge `0.6`, integer grid edges `[0, 1, 1]`). -/
def areaCexLeft : AreaRec :=
  ⟨cps "A", cps "B", cps "1", cps "2", 3 / 10, 10, 0, 0, 0, 0⟩

/-- A 2×2 area starting at `x = 0.6`: zero horizontal gap to
`areaCexLeft`, full vertical overlap. -/
def areaCexRight : AreaRec :=
  ⟨cps "A", cps "B", cps "1", cps "2", 10, 10, 3 / 5, 0, 0, 0⟩

theorem nColsA_areaCexLeft : nColsA areaCexLeft = 2 := by decide

theorem nRowsA_areaCexLeft : nRowsA areaCexLeft = 2 := by decide

theorem nColsA_areaCexRight : nColsA areaCexRight = 2 := by decide

theorem nRowsA_areaCexRight : nRowsA areaCexRight = 2 := by decide

theorem bounds_areaCexLeft :
    area_bounds 1 1 0 0 areaCexLeft = ⟨0, 0, 3 / 5, 20⟩ := by
  unfold area_bounds
  rw [nColsA_areaCexLeft, nRowsA_areaCexLeft]
  simp only [areaCexLeft, Bounds.mk.injEq]
  norm_num

theorem bounds_areaCexRight :
    area_bounds 1 1 0 0 areaCexRight = ⟨3 / 5, 0, 103 / 5, 20⟩ := by
  unfold area_bounds
  rw [nColsA_areaCexRight, nRowsA_areaCexRight]
  simp only [areaCexRight, Bounds.mk.injEq]
  norm_num

theorem edgesX_areaCexLeft : areaEdgesX 1 0 areaCexLeft = [0, 1, 1] := by
  simp only [areaEdgesX, areaTotalX]
  rw [nColsA_areaCexLeft]
  simp only [areaCexLeft]
  rw [if_pos (by norm_num : (0 : ℕ) < 2)]
  unfold gridEdges gridWidths
  rw [if_pos (by norm_num : (0 : ℕ) < 2)]
  rw [show List.range 2 = [0, 1] from rfl]
  norm_num [pyRound, List.scanl]

theorem applyOverride_none (f : Flags) : applyOverride none f = f := rfl

theorem autoSuppress_noop (nr nc : ℕ) (f : Flags) (h1 : ¬nr = 1)
    (h2 : ¬nc = 1) : autoSuppress nr nc f = f := by
  unfold autoSuppress
  simp only [if_neg h1, if_neg h2]

theorem stepVert_noop {sx sy ox oy clh : ℚ} {tp bp : ℤ} {cur a : AreaRec}
    (f : Flags) (hvg : vert_gap sx sy ox oy cur a = -1) :
    stepVert sx sy ox oy clh tp bp cur a f = f := by
  unfold stepVert
  rw [hvg, if_neg]
  rintro ⟨h0, -, -⟩
  norm_num at h0

theorem stepHoriz_keep {sx sy ox oy clw : ℚ} {lp rp : ℤ} {cur a : AreaRec}
    (f : Flags)
    (hnotR : ¬((rp : ℚ) ≤ (area_bounds sx sy ox oy a).left))
    (hnotL : ¬((area_bounds sx sy ox oy a).right ≤ (lp : ℚ))) :
    stepHoriz sx sy ox oy clw lp rp cur a f = f := by
  unfold stepHoriz
  rw [if_neg hnotR, if_neg hnotL, ite_self]

theorem stepHoriz_hideRight {sx sy ox oy clw : ℚ} {lp rp : ℤ}
    {cur a : AreaRec} (f : Flags)
    (hg : horiz_gap sx sy ox oy cur a = 0) (hclw : 0 < clw)
    (hov : vert_overlap (area_bounds sx sy ox oy cur)
      (area_bounds sx sy ox oy a))
    (hfacing : (rp : ℚ) ≤ (area_bounds sx sy ox oy a).left) :
    stepHoriz sx sy ox oy clw lp rp cur a f
      = Flags.mk f.left f.top false f.bottom := by
  unfold stepHoriz
  rw [hg, if_pos ⟨le_refl _, hclw, hov⟩, if_pos hfacing]

theorem stepHoriz_hideLeft {sx sy ox oy clw : ℚ} {lp rp : ℤ}
    {cur a : AreaRec} (f : Flags)
    (hg : horiz_gap sx sy ox oy cur a = 0) (hclw : 0 < clw)
    (hov : vert_overlap (area_bounds sx sy ox oy cur)
      (area_bounds sx sy ox oy a))
    (hnotR : ¬((rp : ℚ) ≤ (area_bounds sx sy ox oy a).left))
    (hfacing : (area_bounds sx sy ox oy a).right ≤ (lp : ℚ)) :
    stepHoriz sx sy ox oy clw lp rp cur a f
      = Flags.mk false f.top f.right f.bottom := by
  unfold stepHoriz
  rw [hg, if_pos ⟨le_refl _, hclw, hov⟩, if_neg hnotR, if_pos hfacing]

theorem vert_gap_areaCex :
    vert_gap 1 1 0 0 areaCexLeft areaCexRight = -1 := by
  unfold vert_gap
  rw [bounds_areaCexLeft, bounds_areaCexRight]
  norm_num

theorem horiz_gap_areaCex :
    horiz_gap 1 1 0 0 areaCexLeft areaCexRight = 0 := by
  unfold horiz_gap
  rw [bounds_areaCexLeft, bounds_areaCexRight]
  norm_num

/-- C7 counterexample: two 2×2 areas with zero horizontal gap and full
vertical overlap, no overrides — but with a fractional tile width
(`0.3`) on the left area.  Its integer grid edges `[0, 1, 1]` give
`right_px = 1`, which exceeds the neighbour's exact left bound `0.6`,
so the left area's right-side labels are NOT suppressed, contradicting
the claim. -/
theorem label_visibility_zero_gap_counterexample :
    nColsA areaCexLeft = 2 ∧ nRowsA areaCexLeft = 2 ∧
      nColsA areaCexRight = 2 ∧ nRowsA areaCexRight = 2 ∧
      horiz_gap 1 1 0 0 areaCexLeft areaCexRight = 0 ∧
      vert_overlap (area_bounds 1 1 0 0 areaCexLeft)
        (area_bounds 1 1 0 0 areaCexRight) ∧
      (resolveVisibility 1 1 0 0 0 0 false 1 areaCexLeft
          [areaCexRight] none).right = true := by
  have hov : vert_overlap (area_bounds 1 1 0 0 areaCexLeft)
      (area_bounds 1 1 0 0 areaCexRight) := by
    unfold vert_overlap
    rw [bounds_areaCexLeft, bounds_areaCexRight]
    norm_num
  have hmain : resolveVisibility 1 1 0 0 0 0 false 1 areaCexLeft
      [areaCexRight] none = Flags.mk true true true true := by
    unfold resolveVisibility
    rw [edgesX_areaCexLeft]
    simp only [List.foldl, neighborStep]
    rw [show ((([0, 1, 1] : List ℤ).getLast?).getD 0) = 1 from rfl,
      show ((([0, 1, 1] : List ℤ).head?).getD 0) = 0 from rfl]
    rw [stepHoriz_keep _ (by
        rw [bounds_areaCexRight]
        norm_num) (by
        rw [bounds_areaCexRight]
        norm_num)]
    rw [stepVert_noop _ vert_gap_areaCex]
    rw [applyOverride_none]
    rw [nRowsA_areaCexLeft, nColsA_areaCexLeft]
    exact autoSuppress_noop _ _ _ (by norm_num) (by norm_num)
  exact ⟨nColsA_areaCexLeft, nRowsA_areaCexLeft, nColsA_areaCexRight,
    nRowsA_areaCexRight, horiz_gap_areaCex, hov, by rw [hmain]⟩

/-- C7 (amended).  Two areas with more than one row and column each, no
manual overrides, zero horizontal gap and overlapping vertical extents
— and (the amendment) integer pixel x-origins and x-spans, so that the
integer grid edges coincide with the exact bounds.  Then visibility
resolution suppresses exactly the facing sides: the left area loses its
right-side labels, the right area its left-side labels, and all other
sides survive. -/
theorem label_visibility_zero_gap_integral
    (sx sy ox oy maxw maxh gap : ℚ) (rot1 rot2 : Bool) (a1 a2 : AreaRec)
    (hw : 0 ≤ maxw) (hg : 0 < gap)
    (hc1 : 2 ≤ nColsA a1) (hr1 : 2 ≤ nRowsA a1)
    (hc2 : 2 ≤ nColsA a2) (hr2 : 2 ≤ nRowsA a2)
    (k1 t1 k2 t2 : ℤ)
    (hk1 : a1.pre_x * sx + ox = (k1 : ℚ))
    (ht1 : ((nColsA a1 : ℕ) : ℚ) * a1.tile_x * sx = ((t1 : ℤ) : ℚ))
    (hk2 : a2.pre_x * sx + ox = (k2 : ℚ))
    (ht2 : ((nColsA a2 : ℕ) : ℚ) * a2.tile_x * sx = ((t2 : ℤ) : ℚ))
    (hn1 : (nColsA a1 : ℤ) ≤ t1) (hn2 : (nColsA a2 : ℤ) ≤ t2)
    (hzero : k1 + t1 = k2)
    (hvert : vert_overlap (area_bounds sx sy ox oy a1)
      (area_bounds sx sy ox oy a2)) :
    resolveVisibility sx sy ox oy maxw maxh rot1 gap a1 [a2] none
        = Flags.mk true true false true ∧
      resolveVisibility sx sy ox oy maxw maxh rot2 gap a2 [a1] none
        = Flags.mk false true true true := by
  have hq : (k1 : ℚ) + (t1 : ℚ) = (k2 : ℚ) := by exact_mod_cast hzero
  have ht1pos : (0 : ℤ) < t1 := lt_of_lt_of_le (by omega) hn1
  have ht2pos : (0 : ℤ) < t2 := lt_of_lt_of_le (by omega) hn2
  -- bounds of the two areas along x
  have hmax1 : max 1 (nColsA a1) = nColsA a1 := by omega
  have hmax2 : max 1 (nColsA a2) = nColsA a2 := by omega
  have hb1l : (area_bounds sx sy ox oy a1).left = (k1 : ℚ) := hk1
  have hb1r : (area_bounds sx sy ox oy a1).right = (k1 : ℚ) + (t1 : ℚ) := by
    show a1.pre_x * sx + ox + ((max 1 (nColsA a1) : ℕ) : ℚ) * a1.tile_x * sx = _
    rw [hmax1, ht1, hk1]
  have hb2l : (area_bounds sx sy ox oy a2).left = (k2 : ℚ) := hk2
  have hb2r : (area_bounds sx sy ox oy a2).right = (k2 : ℚ) + (t2 : ℚ) := by
    show a2.pre_x * sx + ox + ((max 1 (nColsA a2) : ℕ) : ℚ) * a2.tile_x * sx = _
    rw [hmax2, ht2, hk2]
  -- integer grid edges of the two areas along x
  have hedge1 := gridEdges_integral_spec ((k1 : ℚ)) t1 (nColsA a1)
    (by omega) hn1
  have hedge2 := gridEdges_integral_spec ((k2 : ℚ)) t2 (nColsA a2)
    (by omega) hn2
  have hxe1 : areaEdgesX sx ox a1 = gridEdges ((k1 : ℚ)) ((t1 : ℤ) : ℚ)
      (nColsA a1) := by
    unfold areaEdgesX areaTotalX
    rw [if_pos (by omega : 0 < nColsA a1), hk1, ht1]
  have hxe2 : areaEdgesX sx ox a2 = gridEdges ((k2 : ℚ)) ((t2 : ℤ) : ℚ)
      (nColsA a2) := by
    unfold areaEdgesX areaTotalX
    rw [if_pos (by omega : 0 < nColsA a2), hk2, ht2]
  have hright1 : (((areaEdgesX sx ox a1).getLast?).getD 0 : ℤ) = k1 + t1 := by
    rw [hxe1, hedge1.2.2, pyRound_intCast]
    rfl
  have hleft1 : (((areaEdgesX sx ox a1).head?).getD 0 : ℤ) = k1 := by
    rw [hxe1, hedge1.2.1, pyRound_intCast]
    rfl
  have hright2 : (((areaEdgesX sx ox a2).getLast?).getD 0 : ℤ) = k2 + t2 := by
    rw [hxe2, hedge2.2.2, pyRound_intCast]
    rfl
  have hleft2 : (((areaEdgesX sx ox a2).head?).getD 0 : ℤ) = k2 := by
    rw [hxe2, hedge2.2.1, pyRound_intCast]
    rfl
  -- gaps
  have hgap12 : horiz_gap sx sy ox oy a1 a2 = 0 := by
    unfold horiz_gap
    rw [hb1r, hb2l, if_pos (le_of_eq hq)]
    linarith
  have hgap21 : horiz_gap sx sy ox oy a2 a1 = 0 := by
    unfold horiz_gap
    rw [hb2r, hb1l, hb1r, hb2l]
    rw [if_neg (by
      intro hle
      have h2q : (2 : ℚ) ≤ (t1 : ℚ) := by exact_mod_cast le_trans (by exact_mod_cast hc1) hn1
      have h2q2 : (2 : ℚ) ≤ (t2 : ℚ) := by exact_mod_cast le_trans (by exact_mod_cast hc2) hn2
      linarith)]
    rw [if_pos (le_of_eq hq)]
    linarith
  have hvgap12 : vert_gap sx sy ox oy a1 a2 = -1 := by
    unfold vert_gap
    unfold vert_overlap at hvert
    push_neg at hvert
    rw [if_neg (by exact not_le.mpr hvert.1), if_neg (by exact not_le.mpr hvert.2)]
  have hvgap21 : vert_gap sx sy ox oy a2 a1 = -1 := by
    unfold vert_gap
    unfold vert_overlap at hvert
    push_neg at hvert
    rw [if_neg (by exact not_le.mpr hvert.2), if_neg (by exact not_le.mpr hvert.1)]
  have hvert21 : vert_overlap (area_bounds sx sy ox oy a2)
      (area_bounds sx sy ox oy a1) := by
    unfold vert_overlap at hvert ⊢
    tauto
  have hclw : (0 : ℚ) < clearance_w maxw gap := by
    unfold clearance_w
    linarith
  have h2q1 : (2 : ℚ) ≤ (t1 : ℚ) := by
    exact_mod_cast le_trans (by exact_mod_cast hc1) hn1
  have h2q2 : (2 : ℚ) ≤ (t2 : ℚ) := by
    exact_mod_cast le_trans (by exact_mod_cast hc2) hn2
  constructor
  · -- the left area loses exactly its right side
    unfold resolveVisibility
    simp only [List.foldl, neighborStep]
    rw [hright1]
    rw [stepHoriz_hideRight _ hgap12 hclw hvert (by
      rw [hb2l]
      exact_mod_cast le_of_eq hzero)]
    rw [stepVert_noop _ hvgap12, applyOverride_none]
    exact autoSuppress_noop _ _ _ (by omega) (by omega)
  · -- the right area loses exactly its left side
    unfold resolveVisibility
    simp only [List.foldl, neighborStep]
    rw [hright2, hleft2]
    rw [stepHoriz_hideLeft _ hgap21 hclw hvert21 (by
        rw [hb1l]
        intro hle
        have hle2 : (k2 : ℚ) + (t2 : ℚ) ≤ (k1 : ℚ) := by exact_mod_cast hle
        linarith) (by
        rw [hb1r]
        exact_mod_cast le_of_eq hq)]
    rw [stepVert_noop _ hvgap21, applyOverride_none]
    exact autoSuppress_noop _ _ _ (by omega) (by omega)

/-- A 2×2 area, integer geometry: tiles 5×5 starting at the origin. -/
def intAreaLeft : AreaRec :=
  ⟨cps "A", cps "B", cps "1", cps "2", 5, 5, 0, 0, 0, 0⟩

/-- A 2×2 area starting exactly where `intAreaLeft` ends (`x = 10`). -/
def intAreaRight : AreaRec :=
  ⟨cps "A", cps "B", cps "1", cps "2", 5, 5, 10, 0, 0, 0⟩

/-- C7 witness: at integer geometry the facing sides are suppressed and
the outer sides survive. -/
theorem label_visibility_zero_gap_integral_witness :
    resolveVisibility 1 1 0 0 0 0 false 1 intAreaLeft [intAreaRight] none
        = Flags.mk true true false true ∧
      resolveVisibility 1 1 0 0 0 0 false 1 intAreaRight [intAreaLeft] none
        = Flags.mk false true true true := by
  have hcL : nColsA intAreaLeft = 2 := by decide
  have hrL : nRowsA intAreaLeft = 2 := by decide
  have hcR : nColsA intAreaRight = 2 := by decide
  have hrR : nRowsA intAreaRight = 2 := by decide
  have hvert : vert_overlap (area_bounds 1 1 0 0 intAreaLeft)
      (area_bounds 1 1 0 0 intAreaRight) := by
    unfold vert_overlap area_bounds
    rw [hrL, hrR]
    simp only [intAreaLeft, intAreaRight]
    norm_num
  have hk1 : intAreaLeft.pre_x * 1 + 0 = ((0 : ℤ) : ℚ) := by
    simp only [intAreaLeft]
    norm_num
  have ht1 : ((nColsA intAreaLeft : ℕ) : ℚ) * intAreaLeft.tile_x * 1
      = ((10 : ℤ) : ℚ) := by
    rw [hcL]
    simp only [intAreaLeft]
    norm_num
  have hk2 : intAreaRight.pre_x * 1 + 0 = ((10 : ℤ) : ℚ) := by
    simp only [intAreaRight]
    norm_num
  have ht2 : ((nColsA intAreaRight : ℕ) : ℚ) * intAreaRight.tile_x * 1
      = ((10 : ℤ) : ℚ) := by
    rw [hcR]
    simp only [intAreaRight]
    norm_num
  have hn1 : (nColsA intAreaLeft : ℤ) ≤ 10 := by
    rw [hcL]
    norm_num
  have hn2 : (nColsA intAreaRight : ℤ) ≤ 10 := by
    rw [hcR]
    norm_num
  exact label_visibility_zero_gap_integral 1 1 0 0 0 0 1 false false
    intAreaLeft intAreaRight (by norm_num) (by norm_num)
    (by rw [hcL]) (by rw [hrL]) (by rw [hcR]) (by rw [hrR])
    0 10 10 10 hk1 ht1 hk2 ht2 hn1 hn2 (by norm_num) hvert

/-! ### Claim C1: `parse_it8_or_cie` (rectarg.py v1.1, 557-680)

The reference text is modelled as a list of lines (code points).  The
numeric `float()` conversion of row tokens is irrelevant to the claims
(it is wrapped in `try/except` and only changes the stored value's
type), so row values are kept as raw tokens.  The result is wrapped in
`Except RefFormatError` to make the spec's claimed failure statable:
the function body contains no `raise`, so every path returns `.ok`. -/

/-- A word character for the regex `\b` boundary (`[A-Za-z0-9_]`). -/
def isWordCp (c : ℕ) : Bool :=
  isDigitB c || isAlphaB c || decide (97 ≤ c ∧ c ≤ 122) || decide (c = 95)

/-- Whether a line starts (after optional whitespace) with the given
marker word followed by a `\b` boundary — the per-line reading of
`(?ms)^\s*WORD\b`. -/
def isMarkerLine (word line : List ℕ) : Bool :=
  let l1 := line.dropWhile isSpaceB
  decide (l1.take word.length = word) &&
    (match l1.drop word.length with
      | [] => true
      | c :: _ => !isWordCp c)

/-- The block match `(?ms)^\s*W\b(.*?)^\s*E\b`: the remainder of the
opening marker line followed by the lines strictly before the first
matching end marker; `none` when no such pair exists (exactly when
`re.search` returns no match). -/
def findBlock (bword eword : List ℕ) (lines : List (List ℕ)) :
    Option (List (List ℕ)) :=
  match lines.findIdx? (isMarkerLine bword) with
  | none => none
  | some i =>
      match (lines.drop (i + 1)).findIdx? (isMarkerLine eword) with
      | none => none
      | some j =>
          some ((((lines.getD i []).dropWhile isSpaceB).drop bword.length)
            :: (lines.drop (i + 1)).take j)

/-- Whitespace splitting (`re.split(r'\s+', ln.strip())` with empty
tokens dropped), fuel-based for kernel evaluation. -/
def splitWsAux : ℕ → List ℕ → List (List ℕ)
  | 0, _ => []
  | fuel + 1, l =>
      match l.dropWhile isSpaceB with
      | [] => []
      | c :: rest =>
          ((c :: rest).takeWhile (fun d => !isSpaceB d))
            :: splitWsAux fuel ((c :: rest).dropWhile (fun d => !isSpaceB d))

def splitWs (l : List ℕ) : List (List ℕ) :=
  splitWsAux l.length l

/-- The row tokenizer `re.findall(r'"[^"]*"|\S+', ln)`: a quoted run
(kept with its quotes) when one starts here and closes, otherwise a
maximal non-space run. -/
def tokenizeAux : ℕ → List ℕ → List (List ℕ)
  | 0, _ => []
  | fuel + 1, l =>
      match l.dropWhile isSpaceB with
      | [] => []
      | c :: rest =>
          if c = 34 then
            match rest.findIdx? (fun d => decide (d = 34)) with
            | some j =>
                (34 :: (rest.take j ++ [34]))
                  :: tokenizeAux fuel (rest.drop (j + 1))
            | none =>
                ((c :: rest).takeWhile (fun d => !isSpaceB d))
                  :: tokenizeAux fuel ((c :: rest).dropWhile (fun d => !isSpaceB d))
          else
            ((c :: rest).takeWhile (fun d => !isSpaceB d))
              :: tokenizeAux fuel ((c :: rest).dropWhile (fun d => !isSpaceB d))

def tokenize (l : List ℕ) : List (List ℕ) :=
  tokenizeAux l.length l

/-- Drop trailing whitespace (the `\s*$` tail of the header regex). -/
def rstripWs (l : List ℕ) : List ℕ :=
  (l.reverse.dropWhile isSpaceB).reverse

/-- Drop one optional leading and one optional trailing quote, the
`"?(.*?)"?` bracket of the header regex. -/
def dropOneQuote (l : List ℕ) : List ℕ :=
  let l1 := match l with
    | 34 :: t => t
    | _ => l
  match l1.getLast? with
  | some 34 => l1.dropLast
  | _ => l1

/-- Per-line reading of the header regex
`(?mi)^\s*KEY\s+"?(.*?)"?\s*$`, returning `m.group(1).strip()`. -/
def matchHeaderLine (key line : List ℕ) : Option (List ℕ) :=
  let l1 := line.dropWhile isSpaceB
  if (l1.take key.length).map upperCp = key then
    match l1.drop key.length with
    | [] => none
    | c :: rest =>
        if isSpaceB c then
          some (pyStrip (dropOneQuote (rstripWs (rest.dropWhile isSpaceB))))
        else none
  else none

def headerKeys : List (List ℕ) :=
  [cps "ORIGINATOR", cps "DESCRIPTOR", cps "CREATED", cps "MANUFACTURER",
    cps "SERIAL", cps "PROD_DATE"]

/-- The header map: for each conventional key, the first matching
line's value. -/
def headerOf (lines : List (List ℕ)) : List (List ℕ × List ℕ) :=
  headerKeys.filterMap (fun k =>
    match lines.findSome? (matchHeaderLine k) with
    | some v => some (k, v)
    | none => none)

/-- The format-column list: all whitespace tokens of the
`BEGIN_DATA_FORMAT` block (empty when the block is absent). -/
def fmtOf (lines : List (List ℕ)) : List (List ℕ) :=
  match findBlock (cps "BEGIN_DATA_FORMAT") (cps "END_DATA_FORMAT") lines with
  | none => []
  | some bl => (bl.map splitWs).flatten

/-- Model of `f.startswith(p)`. -/
def startsWithCp (p f : List ℕ) : Bool :=
  decide (f.take p.length = p)

/-- Model of `idxL`: first column starting with `LAB_L` or equal to `L`, with
the starred/hyphenated fallback chain `^(L\*|LAB[-_]?L|LCH_L)$`. -/
def idxChanL (fmtU : List (List ℕ)) : Option ℕ :=
  match fmtU.findIdx?
      (fun f => startsWithCp (cps "LAB_L") f || decide (f = cps "L")) with
  | some i => some i
  | none => fmtU.findIdx? (fun f =>
      decide (f = cps "L*" ∨ f = cps "LABL" ∨ f = cps "LAB-L" ∨
        f = cps "LAB_L" ∨ f = cps "LCH_L"))

def idxChanA (fmtU : List (List ℕ)) : Option ℕ :=
  match fmtU.findIdx?
      (fun f => startsWithCp (cps "LAB_A") f || decide (f = cps "A")) with
  | some i => some i
  | none => fmtU.findIdx? (fun f =>
      decide (f = cps "A*" ∨ f = cps "LABA" ∨ f = cps "LAB-A" ∨
        f = cps "LAB_A" ∨ f = cps "LCH_A"))

def idxChanB (fmtU : List (List ℕ)) : Option ℕ :=
  match fmtU.findIdx?
      (fun f => startsWithCp (cps "LAB_B") f || decide (f = cps "B")) with
  | some i => some i
  | none => fmtU.findIdx? (fun f =>
      decide (f = cps "B*" ∨ f = cps "LABB" ∨ f = cps "LAB-B" ∨
        f = cps "LAB_B" ∨ f = cps "LCH_B"))

def idxChanR (fmtU : List (List ℕ)) : Option ℕ :=
  fmtU.findIdx? (fun f => decide (f = cps "RGB_R" ∨ f = cps "R"))

def idxChanG (fmtU : List (List ℕ)) : Option ℕ :=
  fmtU.findIdx? (fun f => decide (f = cps "RGB_G" ∨ f = cps "G"))

def idxChanBrgb (fmtU : List (List ℕ)) : Option ℕ :=
  fmtU.findIdx? (fun f => decide (f = cps "RGB_B" ∨ f = cps "B"))

def idxChanX (fmtU : List (List ℕ)) : Option ℕ :=
  fmtU.findIdx? (fun f => decide (f = cps "XYZ_X" ∨ f = cps "X"))

def idxChanY (fmtU : List (List ℕ)) : Option ℕ :=
  fmtU.findIdx? (fun f => decide (f = cps "XYZ_Y" ∨ f = cps "Y"))

def idxChanZ (fmtU : List (List ℕ)) : Option ℕ :=
  fmtU.findIdx? (fun f => decide (f = cps "XYZ_Z" ∨ f = cps "Z"))

/-- The sample-label column priority list, as indices into the
(upper-cased) format list. -/
def labelCols (fmtU : List (List ℕ)) : List ℕ :=
  [cps "SAMPLE_LOC", cps "SAMPLE_LABEL", cps "SAMPLE_NAME",
    cps "SAMPLE_ID"].filterMap
    (fun c => fmtU.findIdx? (fun f => decide (f = c)))

/-- Model of `strip('"')`: remove all leading and trailing quote characters. -/
def stripQuotes (l : List ℕ) : List ℕ :=
  ((l.dropWhile (fun c => decide (c = 34))).reverse.dropWhile
    (fun c => decide (c = 34))).reverse

/-- Alphanumeric (either case), the `^[A-Z0-9]+$` + `re.I` label test
(the second pattern `^(GS\d+)$` is subsumed by it). -/
def isAlnumCI (c : ℕ) : Bool :=
  isDigitB c || isAlphaB c || decide (97 ≤ c ∧ c ≤ 122)

/-- Sample-id selection for one row: the first plausible label among
the conventional columns, else the row's first token. -/
def pickSid (cols : List ℕ) (parts : List (List ℕ)) : List ℕ :=
  match cols.findSome? (fun c =>
    match parts.get? c with
    | some p =>
        let cand := pyStrip (stripQuotes p)
        if cand ≠ [] ∧ cand.all isAlnumCI then some cand else none
    | none => none) with
  | some s => s
  | none => pyStrip (stripQuotes (parts.headD []))

inductive CSpace
  | lab
  | rgb
  | xyz
deriving DecidableEq

structure RefEntry where
  vals : List (List ℕ)
  space : CSpace
  i1 : Option ℕ
  i2 : Option ℕ
  i3 : Option ℕ
deriving DecidableEq

inductive RefFormatError
  | formatError
deriving DecidableEq

structure RefParse where
  fmt : List (List ℕ)
  table : List (List ℕ × RefEntry)
  header : List (List ℕ × List ℕ)
deriving DecidableEq

/-- Python dict insertion: overwrite in place, else append. -/
def dictInsert (m : List (List ℕ × RefEntry)) (k : List ℕ)
    (v : RefEntry) : List (List ℕ × RefEntry) :=
  if (m.find? (fun p => decide (p.1 = k))).isSome then
    m.map (fun p => if p.1 = k then (k, v) else p)
  else m ++ [(k, v)]

/-- The data rows of the block: skip blank and `#` lines and rows with
fewer than two tokens; keep the selected sample id with the raw
tokens. -/
def rowsOf (cols : List ℕ) (bl : List (List ℕ)) :
    List (List ℕ × List (List ℕ)) :=
  bl.filterMap (fun line =>
    let ln := pyStrip line
    if ln = [] then none
    else if ln.headD 0 = 35 then none
    else
      let parts := tokenize ln
      if parts.length < 2 then none
      else some (pickSid cols parts, parts))

/-- Model of `parse_it8_or_cie` (rectarg.py v1.1, 557-680).  When the
`BEGIN_DATA … END_DATA` block is absent the source returns
`(fmt, {}, header)` — it has no failure path, so every branch is
`.ok`. -/
def parse_it8_or_cie (lines : List (List ℕ)) (cs : CSpace) :
    Except RefFormatError RefParse :=
  let header := headerOf lines
  let fmt := fmtOf lines
  let fmtU := fmt.map (List.map upperCp)
  match findBlock (cps "BEGIN_DATA") (cps "END_DATA") lines with
  | none => .ok ⟨fmt, [], header⟩
  | some bl =>
      let chans : Option ℕ × Option ℕ × Option ℕ :=
        match cs with
        | CSpace.lab => (idxChanL fmtU, idxChanA fmtU, idxChanB fmtU)
        | CSpace.rgb => (idxChanR fmtU, idxChanG fmtU, idxChanBrgb fmtU)
        | CSpace.xyz => (idxChanX fmtU, idxChanY fmtU, idxChanZ fmtU)
      let table := (rowsOf (labelCols fmtU) bl).foldl
        (fun m r => dictInsert m (r.1.map upperCp)
          ⟨r.2, cs, chans.1, chans.2.1, chans.2.2⟩) []
      .ok ⟨fmt, table, header⟩

/-- A reference text whose `BEGIN_DATA` / `END_DATA` delimiters are
entirely absent (header and format block only). -/
def refNoDataLines : List (List ℕ) :=
  [cps "IT8.7/2", cps "ORIGINATOR \"X-Rite\"", cps "BEGIN_DATA_FORMAT",
    cps "SAMPLE_ID LAB_L LAB_A LAB_B", cps "END_DATA_FORMAT",
    cps "A01 10.0 2.0 3.0"]

/-- C1 counterexample: on a reference text with no data-block
delimiters, `parse_it8_or_cie` does not fail — it returns the parsed
format list, an empty sample table and the header (a well-defined,
usable result), never a `FormatError` (indeed, no `FormatError` exists
anywhere in the source and the function body contains no `raise`). -/
theorem parse_it8_missing_delims_counterexample :
    parse_it8_or_cie refNoDataLines CSpace.lab
        = Except.ok
            ⟨[cps "SAMPLE_ID", cps "LAB_L", cps "LAB_A", cps "LAB_B"], [],
              [(cps "ORIGINATOR", cps "X-Rite")]⟩ ∧
      parse_it8_or_cie refNoDataLines CSpace.lab
        ≠ Except.error RefFormatError.formatError := by
  have h1 : parse_it8_or_cie refNoDataLines CSpace.lab
      = Except.ok
          ⟨[cps "SAMPLE_ID", cps "LAB_L", cps "LAB_A", cps "LAB_B"], [],
            [(cps "ORIGINATOR", cps "X-Rite")]⟩ := rfl
  refine ⟨h1, ?_⟩
  intro h
  rw [h1] at h
  exact Except.noConfusion h

/-- C1 (amended).  Whenever the `BEGIN_DATA … END_DATA` pair is absent
from the reference text, `parse_it8_or_cie` returns successfully with
the parsed format list, an empty sample table and the header — it does
not raise, and the reconstruction continues (painting patches with the
neutral-gray fallback). -/
theorem parse_it8_missing_delims_ok (lines : List (List ℕ)) (cs : CSpace)
    (h : findBlock (cps "BEGIN_DATA") (cps "END_DATA") lines = none) :
    parse_it8_or_cie lines cs
      = Except.ok ⟨fmtOf lines, [], headerOf lines⟩ := by
  unfold parse_it8_or_cie
  rw [h]

/-- C1 witness: the delimiter-free text above. -/
theorem parse_it8_missing_delims_ok_witness :
    findBlock (cps "BEGIN_DATA") (cps "END_DATA") refNoDataLines = none ∧
      parse_it8_or_cie refNoDataLines CSpace.lab
        = Except.ok ⟨fmtOf refNoDataLines, [], headerOf refNoDataLines⟩ :=
  ⟨by decide, parse_it8_missing_delims_ok refNoDataLines CSpace.lab (by decide)⟩

